import Mathlib

/-!
Verification development for the MIDNAM structural merge / normalize / serialize
engine of `server.py` (class `MIDNAMHandler`).

The XML element tree of `xml.etree.ElementTree` is modelled as a rose tree
`Elem` carrying a tag, an attribute list and a child list.  The engine's
operations are translated as pure tree transformations:

  * `ensureDtdCompliance`   — `_ensure_dtd_compliance` (the DTD Normalizer);
  * `mergeStructure`        — the per-section merge loop of
                              `save_midnam_structure` (the Merge Engine);
  * `saveMidnamStructure`   — the request wrapper of `save_midnam_structure`
                              (existence check, backup, serialize, response);
  * `readProgramChangeDetails` / `readProgramChangeReload`
                            — the patch program-change readers of
                              `get_device_details` and `reload_midnam`.

The Python code mutates one shared tree in place while iterating over node
lists captured by `findall('.//…')` (document pre-order).  The pure model
reproduces that behaviour by a single pre-order transformation; the one spot
where in-place aliasing is visible — `master_device.remove(node)` raising
`ValueError` when a `ChannelNameSet` found by the *recursive* search is not a
*direct* child of the device record — is modelled by an explicit `Except`
error, see `mergeChannelNameSets`.
-/

/-- An XML element: tag, attribute list (`xml.etree` keeps attributes in a
dict, keys unique), and list of child elements.  Text nodes play no role in
the engine and are not modelled. -/
inductive Elem : Type where
  | mk (tag : String) (attrs : List (String × String)) (children : List Elem)

def Elem.tag : Elem → String
  | .mk t _ _ => t

def Elem.attrs : Elem → List (String × String)
  | .mk _ a _ => a

def Elem.children : Elem → List Elem
  | .mk _ _ cs => cs

/-- `element.get(key)` — attribute lookup, `None` when missing. -/
def attrOf (a : List (String × String)) (k : String) : Option String :=
  (a.find? (fun p => p.1 == k)).map (·.2)

/-- `element.get(key)` on an element. -/
def Elem.get (e : Elem) (k : String) : Option String :=
  attrOf e.attrs k

/-- `element.get(key, default)`. -/
def Elem.getD (e : Elem) (k d : String) : String :=
  (e.get k).getD d

/-- `element.find(tag)` — first direct child with the given tag. -/
def Elem.findTag (e : Elem) (t : String) : Option Elem :=
  e.children.find? (fun c => c.tag == t)

mutual

/-- Number of nodes with a given tag anywhere in the tree (the node itself
included).  A specification-side observation used to state the claims. -/
def countTag (t : String) : Elem → Nat
  | .mk tg _ cs => (if tg == t then 1 else 0) + countTagL t cs

def countTagL (t : String) : List Elem → Nat
  | [] => 0
  | c :: cs => countTag t c + countTagL t cs

end

mutual

/-- Number of occurrences of a (tag, attrs) node label anywhere in the tree.
Children are not part of the label: the claims about node preservation speak
of nodes surviving "possibly under a different parent". -/
def countLabel (lbl : String × List (String × String)) : Elem → Nat
  | .mk tg a cs =>
      (if tg == lbl.1 && a == lbl.2 then 1 else 0) + countLabelL lbl cs

def countLabelL (lbl : String × List (String × String)) : List Elem → Nat
  | [] => 0
  | c :: cs => countLabel lbl c + countLabelL lbl cs

end

/-! ## The DTD Compliance Normalizer (`_ensure_dtd_compliance`)

`_ensure_dtd_compliance(root)` iterates over `root.findall('.//MasterDeviceNames')`
and, per device record, over `master.findall('.//ChannelNameSet')` in document
pre-order.  Per channel name set it
  1. removes every direct `NoteNameList` child and appends each to the device
     record (one `fixes_applied` entry per channel name set that had any);
  2. re-partitions the children into availability block / note-or-control
     references / patch banks / other, and, when some reference occurs after
     the first `PatchBank` child, clears and re-appends them in DTD order,
     truncating the note references to at most one (one `fixes_applied` entry
     for the reorder, plus one WARNING entry when more than one note
     reference was present).
The function returns `len(fixes_applied)`. -/

/-- Note-reference tags (`NoteNameList | UsesNoteNameList`). -/
def noteRefTag (t : String) : Bool :=
  t == "NoteNameList" || t == "UsesNoteNameList"

/-- Control-reference tags (`ControlNameList | UsesControlNameList`). -/
def ctrlRefTag (t : String) : Bool :=
  t == "ControlNameList" || t == "UsesControlNameList"

/-- Tags counted as note/control references in `_ensure_dtd_compliance`. -/
def isRefTag (t : String) : Bool :=
  noteRefTag t || ctrlRefTag t

def isRef (e : Elem) : Bool := isRefTag e.tag

def isNoteRef (e : Elem) : Bool := noteRefTag e.tag

def isCtrlRef (e : Elem) : Bool := ctrlRefTag e.tag

/-- The source's reorder test: some note/control reference has a position
strictly greater than the position of the first `PatchBank` child
(`children.index(ref) > first_patch_bank_idx`).  Folded form: scan left to
right, `seen` records whether a `PatchBank` has already occurred. -/
def refAfterBank (seen : Bool) : List Elem → Bool
  | [] => false
  | c :: cs => (seen && isRef c) || refAfterBank (seen || c.tag == "PatchBank") cs

/-- `needs_reorder` of `_ensure_dtd_compliance` (true iff both a patch bank
and a reference exist and some reference follows the first patch bank). -/
def needsReorder (cs : List Elem) : Bool :=
  refAfterBank false cs

/-- The clear-and-re-append step of `_ensure_dtd_compliance` on the (already
note-list-stripped) children of one `ChannelNameSet`.  Returns the new child
list, the dropped excess note references, and the number of `fixes_applied`
entries recorded (0 when no reorder, otherwise 1 plus 1 for the WARNING when
more than one note reference is present). -/
def reorderCNSChildren (kept : List Elem) : List Elem × List Elem × Nat :=
  if needsReorder kept then
    let afc := kept.filter (fun c => c.tag == "AvailableForChannels")
    let refs := kept.filter isRef
    let banks := kept.filter (fun c => c.tag == "PatchBank")
    let other := kept.filter
      (fun c => !(c.tag == "AvailableForChannels") && !(isRef c) && !(c.tag == "PatchBank"))
    let noteRefs := refs.filter isNoteRef
    let ctrlRefs := refs.filter isCtrlRef
    (afc ++ noteRefs.take 1 ++ ctrlRefs ++ banks ++ other,
     noteRefs.drop 1,
     1 + (if 1 < noteRefs.length then 1 else 0))
  else (kept, [], 0)

/-- Result of normalizing one subtree: the rewritten tree, the processed
`NoteNameList` nodes travelling up to the enclosing device record (`moved`),
the excess note references discarded by reordering (`dropped`, a ghost output
used to state preservation claims), and the number of `fixes_applied`
entries. -/
structure FixOut where
  tree : Elem
  moved : List Elem
  dropped : List Elem
  fixes : Nat

/-- Result of processing the direct children of one `ChannelNameSet`:
`kept` are the non-`NoteNameList` children (rewritten), `directNL` the
rewritten direct `NoteNameList` children (removed from the set, first to be
appended to the device record), `deepMoved` the note lists collected deeper
in the subtree in document order. -/
structure CNSKidsOut where
  kept : List Elem
  directNL : List Elem
  deepMoved : List Elem
  dropped : List Elem
  fixes : Nat

mutual

/-- Normalize one node.  `inMaster = false` outside any `MasterDeviceNames`
(only looks for device records, like `root.findall('.//MasterDeviceNames')`);
`inMaster = true` inside one (processes every `ChannelNameSet` of the
subtree, like `master.findall('.//ChannelNameSet')`, bubbling moved note
lists up to the device record that consumes them). -/
def dtdFixE (inMaster : Bool) : Elem → FixOut
  | .mk t a cs =>
    if !inMaster && t == "MasterDeviceNames" then
      let rs := dtdFixL true cs
      { tree := .mk t a (rs.map (·.tree) ++ rs.flatMap (·.moved)),
        moved := [],
        dropped := rs.flatMap (·.dropped),
        fixes := (rs.map (·.fixes)).sum }
    else if inMaster && t == "ChannelNameSet" then
      let k := dtdFixCNSKids cs
      let r := reorderCNSChildren k.kept
      { tree := .mk t a r.1,
        moved := k.directNL ++ k.deepMoved,
        dropped := r.2.1 ++ k.dropped,
        fixes := (if k.directNL.isEmpty then 0 else 1) + r.2.2 + k.fixes }
    else
      let rs := dtdFixL inMaster cs
      { tree := .mk t a (rs.map (·.tree)),
        moved := rs.flatMap (·.moved),
        dropped := rs.flatMap (·.dropped),
        fixes := (rs.map (·.fixes)).sum }

def dtdFixL (inMaster : Bool) : List Elem → List FixOut
  | [] => []
  | c :: cs => dtdFixE inMaster c :: dtdFixL inMaster cs

/-- Process the children of a `ChannelNameSet`: direct `NoteNameList`
children are removed and collected (they and everything else are still
normalized recursively, since the captured `findall` node list keeps visiting
relocated subtrees). -/
def dtdFixCNSKids : List Elem → CNSKidsOut
  | [] => ⟨[], [], [], [], 0⟩
  | c :: cs =>
    let r := dtdFixE true c
    let k := dtdFixCNSKids cs
    if c.tag == "NoteNameList" then
      ⟨k.kept, r.tree :: k.directNL, r.moved ++ k.deepMoved,
       r.dropped ++ k.dropped, r.fixes + k.fixes⟩
    else
      ⟨r.tree :: k.kept, k.directNL, r.moved ++ k.deepMoved,
       r.dropped ++ k.dropped, r.fixes + k.fixes⟩

end

/-- `_ensure_dtd_compliance(root)`: returns the rewritten document and the
fix count (`len(fixes_applied)`).  `findall('.//MasterDeviceNames')` yields
strict descendants only, so the walk starts below the root node. -/
def ensureDtdCompliance : Elem → Elem × Nat
  | .mk t a cs =>
    let rs := dtdFixL false cs
    (.mk t a (rs.map (·.tree)), (rs.map (·.fixes)).sum)

/-- Ghost observation: the elements dropped by `_ensure_dtd_compliance`
(excess note references of reordered channel name sets, with their
subtrees). -/
def dtdDropped : Elem → List Elem
  | .mk _ _ cs => (dtdFixL false cs).flatMap (·.dropped)

/-! ## The partial-update payload

`save_midnam_structure` receives `midnam`, a JSON object in which every
top-level section is optional (`'key' in midnam` guards), except that the
standard-device-mode step reads `midnam.get('supportsStandardDeviceMode',
False)` — absence and `false` are indistinguishable there.  Scalars arriving
from JSON are pushed through `str()` by the source before being stored as
attributes; the model carries them as strings.  `Option` encodes key
presence. -/

structure FrontChan where
  channel : Option String
  available : Bool

structure FrontCNS where
  name : String
  available_channels : Option (List FrontChan)

structure FrontCmd where
  type : String
  control : Option String
  value : Option String

structure FrontPatch where
  name : Option String
  number : Option String
  programChange : Option String

structure FrontBank where
  name : Option String
  channelNameSet : Option String
  midi_commands : Option (List FrontCmd)
  patch : Option (List FrontPatch)

structure FrontNote where
  number : Option String
  name : Option String

structure FrontNoteList where
  name : Option String
  notes : Option (List FrontNote)

structure FrontControl where
  type : Option String
  number : Option String
  name : Option String

structure FrontControlList where
  name : Option String
  controls : Option (List FrontControl)

structure Payload where
  channelNameSets : Option (List FrontCNS)
  patchList : Option (List FrontBank)
  note_lists : Option (List FrontNoteList)
  control_lists : Option (List FrontControlList)
  activeControlListName : Option String
  supportsStandardDeviceMode : Option Bool
  standardDeviceModeName : Option String

/-- The payload with every section absent. -/
def Payload.empty : Payload :=
  ⟨none, none, none, none, none, none, none⟩

/-! ## The Structural Merge Engine (`save_midnam_structure`, lines 514–693)

The source iterates `for master_device in root.findall('.//MasterDeviceNames')`
— every device record, in document order — and applies the six per-section
steps.  The model applies `mergeMaster` at each `MasterDeviceNames` node of
the tree.  (A `MasterDeviceNames` nested inside another one would be visited
twice by the source's recursive `findall`; the model visits each once.  The
DTD forbids such nesting and the theorems that need it assume it away.) -/

def isCNS (e : Elem) : Bool := e.tag == "ChannelNameSet"

/-- The dict key of a `ChannelNameSet` node: `ns.get('Name')`. -/
def cnsKey (e : Elem) : Option String := e.get "Name"

mutual

/-- Does any node of the subtree (itself included) carry the
`ChannelNameSet` tag? -/
def containsCNS : Elem → Bool
  | .mk t _ cs => t == "ChannelNameSet" || containsCNSL cs

def containsCNSL : List Elem → Bool
  | [] => false
  | c :: cs => containsCNS c || containsCNSL cs

end

/-- Every `ChannelNameSet` reachable from the device record by
`findall('.//ChannelNameSet')` is one of its direct children: no grandchild
subtree contains one. -/
def cnsAllDirect (cs : List Elem) : Bool :=
  cs.all (fun c => !(containsCNSL c.children))

/-- One `<AvailableChannel Channel=… Available=…/>` child:
`str(ch.get('channel', '1'))` and `'true' if ch.get('available') else 'false'`. -/
def mkAvailChannel (ch : FrontChan) : Elem :=
  .mk "AvailableChannel"
    [("Channel", ch.channel.getD "1"),
     ("Available", if ch.available then "true" else "false")] []

/-- Replace the first `AvailableForChannels` child in the list by the given
element (models `available_for_channels.clear()` followed by re-filling: the
node keeps its position, loses attributes and children). -/
def replaceFirstAFC (n : Elem) : List Elem → List Elem
  | [] => []
  | c :: cs =>
    if c.tag == "AvailableForChannels" then n :: cs else c :: replaceFirstAFC n cs

/-- The availability-block rewrite of the channel-name-set step: when the
payload entry carries `available_channels`, find the first direct
`AvailableForChannels` (create-and-append one if missing), clear it, and
append one `AvailableChannel` per incoming pair. -/
def updateCNSElem (fs : FrontCNS) (cns : Elem) : Elem :=
  match fs.available_channels with
  | none => cns
  | some chans =>
    match cns with
    | .mk t a cs =>
      let newAFC : Elem := .mk "AvailableForChannels" [] (chans.map mkAvailChannel)
      if cs.any (fun c => c.tag == "AvailableForChannels") then
        .mk t a (replaceFirstAFC newAFC cs)
      else
        .mk t a (cs ++ [newAFC])

/-- Delete-by-omission: remove, for every name absent from the incoming
payload, the `ChannelNameSet` the name→node dict maps to — the *last* child
with that `Name` (a dict comprehension keeps the last value per key).  An
earlier duplicate with the same name is not removed. -/
def removeStaleCNS (front : List String) : List Elem → List Elem
  | [] => []
  | c :: cs =>
    if isCNS c
        && !(match cnsKey c with
             | some n => front.contains n
             | none => false)
        && !(cs.any (fun c' => isCNS c' && cnsKey c' == cnsKey c)) then
      removeStaleCNS front cs
    else
      c :: removeStaleCNS front cs

/-- Apply `f` to the last `ChannelNameSet` child named `n` (the node the
name→node dict maps `n` to). -/
def modifyLastCNSNamed (n : String) (f : Elem → Elem) : List Elem → List Elem
  | [] => []
  | c :: cs =>
    if cs.any (fun c' => isCNS c' && cnsKey c' == some n) then
      c :: modifyLastCNSNamed n f cs
    else if isCNS c && cnsKey c == some n then
      f c :: cs
    else
      c :: modifyLastCNSNamed n f cs

/-- The channel-name-set step (lines 516–552) on the device record's child
list: build the name→node map of existing sets, remove the stale ones,
then per payload entry reuse the mapped node or create-and-append a fresh
`ChannelNameSet`, and rewrite its availability block. -/
def mergeCNSChildren (sets : List FrontCNS) (cs : List Elem) : List Elem :=
  let origNames : List String :=
    cs.filterMap (fun c => if isCNS c then cnsKey c else none)
  let front : List String := sets.map (·.name)
  sets.foldl
    (fun acc fs =>
      if origNames.contains fs.name then
        modifyLastCNSNamed fs.name (updateCNSElem fs) acc
      else
        acc ++ [updateCNSElem fs (.mk "ChannelNameSet" [("Name", fs.name)] [])])
    (removeStaleCNS front cs)

/-- The channel-name-set step with its failure mode.  The source builds the
map with `master.findall('.//ChannelNameSet')` (recursive) but removes and
re-appends on `master_device` itself; on the DTD layout every found set is a
direct child and the two coincide.  When a set is *not* a direct child,
`master_device.remove` raises `ValueError` (surfaced as a 500); the model
errors in that situation. -/
def mergeChannelNameSets (p : Payload) (cs : List Elem) : Except String (List Elem) :=
  match p.channelNameSets with
  | none => .ok cs
  | some sets =>
    if cnsAllDirect cs then .ok (mergeCNSChildren sets cs)
    else .error "ChannelNameSet is not a direct child of the device record"

/-- `_create_patch_bank`: a full `PatchBank` definition — `MIDICommands`
(only when the payload lists any, `ControlChange` entries only) followed by a
`PatchNameList` holding one attribute-form `Patch` per payload entry. -/
def createPatchBank (fb : FrontBank) : Elem :=
  let cmds : List Elem :=
    match fb.midi_commands with
    | none => []
    | some l =>
      if l.isEmpty then []
      else
        [.mk "MIDICommands" []
          (l.filterMap (fun cmd =>
            if cmd.type == "ControlChange" then
              some (.mk "ControlChange"
                [("control", cmd.control.getD "0"), ("value", cmd.value.getD "0")] [])
            else none))]
  let patches : List Elem :=
    match fb.patch with
    | none => []
    | some l =>
      l.map (fun pd =>
        .mk "Patch"
          [("Name", pd.name.getD ""), ("Number", pd.number.getD ""),
           ("ProgramChange", pd.programChange.getD "")] [])
  .mk "PatchBank" [("Name", fb.name.getD "New Bank")] (cmds ++ [.mk "PatchNameList" [] patches])

/-- `banks_by_nameset`: the payload banks grouped by owning channel name set
(banks with a falsy `channelNameSet` are skipped; a set without a `Name`
attribute, or named `""`, gets no banks). -/
def banksFor (pl : List FrontBank) (key : Option String) : List FrontBank :=
  match key with
  | none => []
  | some n => if n == "" then [] else pl.filter (fun b => b.channelNameSet == some n)

mutual

/-- The per-set part of the patch-bank step, applied to every
`ChannelNameSet` of the device record's subtree (`findall('.//ChannelNameSet')`):
discard all direct `PatchBank` children, then append one full bank per
payload entry for this set, in payload order. -/
def rewriteBanksE (pl : List FrontBank) : Elem → Elem
  | .mk t a cs =>
    if t == "ChannelNameSet" then
      .mk t a (rewriteBanksCNSKids pl cs
        ++ (banksFor pl (attrOf a "Name")).map createPatchBank)
    else
      .mk t a (rewriteBanksL pl cs)

/-- Children of a `ChannelNameSet` under the patch-bank step: every direct
`PatchBank` is discarded, the rest are processed recursively (fused form of
filter-then-recurse, identical because the recursion never changes a tag). -/
def rewriteBanksCNSKids (pl : List FrontBank) : List Elem → List Elem
  | [] => []
  | c :: cs =>
    if c.tag == "PatchBank" then rewriteBanksCNSKids pl cs
    else rewriteBanksE pl c :: rewriteBanksCNSKids pl cs

def rewriteBanksL (pl : List FrontBank) : List Elem → List Elem
  | [] => []
  | c :: cs => rewriteBanksE pl c :: rewriteBanksL pl cs

end

/-- The patch-bank step (lines 557–593) on the device record's children:
remove every `PatchBank` sitting directly under the device record
("incorrect location"), then rewrite the banks of every channel name set. -/
def mergePatchList (p : Payload) (cs : List Elem) : List Elem :=
  match p.patchList with
  | none => cs
  | some pl => rewriteBanksL pl (cs.filter (fun c => !(c.tag == "PatchBank")))

/-- One `<Note Number=… Name=…/>`: `str(note.get('number', 0))`,
`note.get('name', '')`. -/
def mkNoteElem (n : FrontNote) : Elem :=
  .mk "Note" [("Number", n.number.getD "0"), ("Name", n.name.getD "")] []

/-- One full `NoteNameList` from the payload. -/
def mkNoteListElem (nl : FrontNoteList) : Elem :=
  .mk "NoteNameList" [("Name", nl.name.getD "Notes")] ((nl.notes.getD []).map mkNoteElem)

/-- The note-list step (lines 596–617): full replace of the device record's
direct `NoteNameList` children, new ones appended at the end. -/
def mergeNoteLists (p : Payload) (cs : List Elem) : List Elem :=
  match p.note_lists with
  | none => cs
  | some ls =>
    cs.filter (fun c => !(c.tag == "NoteNameList")) ++ ls.map mkNoteListElem

/-- One `<Control Type=… Number=… Name=…/>`. -/
def mkControlElem (c : FrontControl) : Elem :=
  .mk "Control"
    [("Type", c.type.getD "7bit"), ("Number", c.number.getD "0"),
     ("Name", c.name.getD "")] []

/-- One full `ControlNameList` from the payload. -/
def mkControlListElem (cl : FrontControlList) : Elem :=
  .mk "ControlNameList" [("Name", cl.name.getD "Controls")]
    ((cl.controls.getD []).map mkControlElem)

/-- The control-list step (lines 620–643): same full-replace policy at the
device-record level. -/
def mergeControlLists (p : Payload) (cs : List Elem) : List Elem :=
  match p.control_lists with
  | none => cs
  | some ls =>
    cs.filter (fun c => !(c.tag == "ControlNameList")) ++ ls.map mkControlListElem

def insertAfterAFCgo (x : Elem) : List Elem → List Elem
  | [] => []
  | c :: cs =>
    if c.tag == "AvailableForChannels" then c :: x :: cs
    else c :: insertAfterAFCgo x cs

/-- Insert `x` right after the first `AvailableForChannels` of the list, or
at index 0 when there is none. -/
def insertAfterAFC (x : Elem) (cs : List Elem) : List Elem :=
  if cs.any (fun c => c.tag == "AvailableForChannels") then
    insertAfterAFCgo x cs
  else
    x :: cs

/-- Remove the first direct child with the given tag (`find` + `remove`). -/
def removeFirstTag (t : String) : List Elem → List Elem
  | [] => []
  | c :: cs => if c.tag == t then cs else c :: removeFirstTag t cs

mutual

/-- The active-control-list step on one subtree node: in every
`ChannelNameSet` (recursive `findall`), drop the first existing
`UsesControlNameList` and insert a fresh one after the availability block. -/
def usesCtrlE (nm : String) : Elem → Elem
  | .mk t a cs =>
    if t == "ChannelNameSet" then
      let rs := usesCtrlL nm cs
      let rs1 :=
        if rs.any (fun c => c.tag == "UsesControlNameList") then
          removeFirstTag "UsesControlNameList" rs
        else rs
      .mk t a (insertAfterAFC (.mk "UsesControlNameList" [("Name", nm)] []) rs1)
    else
      .mk t a (usesCtrlL nm cs)

def usesCtrlL (nm : String) : List Elem → List Elem
  | [] => []
  | c :: cs => usesCtrlE nm c :: usesCtrlL nm cs

end

/-- The active-control-list step (lines 646–666); runs only when the key is
present *and* truthy (the empty string is falsy). -/
def mergeActiveControl (p : Payload) (cs : List Elem) : List Elem :=
  match p.activeControlListName with
  | none => cs
  | some nm => if nm == "" then cs else usesCtrlL nm cs

/-- The insertion index for `SupportsStandardDeviceMode`: one past the last
`Model` child, stopping at the first `CustomDeviceMode`; 0 when neither
occurs before. -/
def ssdmIdxAux (i acc : Nat) : List Elem → Nat
  | [] => acc
  | c :: cs =>
    if c.tag == "Model" then ssdmIdxAux (i + 1) (i + 1) cs
    else if c.tag == "CustomDeviceMode" then acc
    else ssdmIdxAux (i + 1) acc cs

def ssdmIdx (cs : List Elem) : Nat := ssdmIdxAux 0 0 cs

/-- The standard-device-mode step (lines 669–693).  NOTE: this step is *not*
guarded by key presence — it always removes every existing
`SupportsStandardDeviceMode` and re-adds one only when
`midnam.get('supportsStandardDeviceMode', False)` is truthy. -/
def mergeSSDM (p : Payload) (cs : List Elem) : List Elem :=
  let cs' := cs.filter (fun c => !(c.tag == "SupportsStandardDeviceMode"))
  if p.supportsStandardDeviceMode.getD false then
    cs'.insertIdx (ssdmIdx cs')
      (.mk "SupportsStandardDeviceMode"
        [("Name", p.standardDeviceModeName.getD "General MIDI")] [])
  else cs'

/-- All six per-section steps on one device record, in source order. -/
def mergeMaster (p : Payload) : Elem → Except String Elem
  | .mk t a cs =>
    match mergeChannelNameSets p cs with
    | .error e => .error e
    | .ok cs1 =>
      .ok (.mk t a
        (mergeSSDM p (mergeActiveControl p
          (mergeControlLists p (mergeNoteLists p (mergePatchList p cs1))))))

mutual

/-- Apply the merge to every `MasterDeviceNames` record of the tree
(`root.findall('.//MasterDeviceNames')` — *all* device records, not only the
first). -/
def mergeE (p : Payload) : Elem → Except String Elem
  | .mk t a cs =>
    if t == "MasterDeviceNames" then mergeMaster p (.mk t a cs)
    else
      match mergeL p cs with
      | .error e => .error e
      | .ok cs' => .ok (.mk t a cs')

def mergeL (p : Payload) : List Elem → Except String (List Elem)
  | [] => .ok []
  | c :: cs =>
    match mergeE p c with
    | .error e => .error e
    | .ok c' =>
      match mergeL p cs with
      | .error e => .error e
      | .ok cs' => .ok (c' :: cs')

end

/-- `mergeStructure(document, partialUpdate)`: the in-place per-section merge
of `save_midnam_structure` as a pure function on the document tree.  Device
records are strict descendants of the document root. -/
def mergeStructure (root : Elem) (p : Payload) : Except String Elem :=
  match root with
  | .mk t a cs =>
    match mergeL p cs with
    | .error e => .error e
    | .ok cs' => .ok (.mk t a cs')

instance : Inhabited Elem := ⟨.mk "" [] []⟩

/-! ## The Serializer (`save_midnam_structure`, lines 701–723)

The source pretty-prints through `minidom.toprettyxml(indent='\t')`, strips
blank lines, drops minidom's declaration, and prepends the UTF-8 declaration
and the captured (or default) DOCTYPE line.  The model renders the tree with
tab indentation, one element per line (attribute values are emitted verbatim;
XML escaping plays no role in the claims).  What the claims use is that the
output is a function of the tree and the DOCTYPE line alone. -/

def attrsString (a : List (String × String)) : String :=
  (a.map (fun p => " " ++ p.1 ++ "=\x22" ++ p.2 ++ "\x22")).foldl (· ++ ·) ""

mutual

def serializeE (ind : String) : Elem → List String
  | .mk t a cs =>
    if cs.isEmpty then [ind ++ "<" ++ t ++ attrsString a ++ "/>"]
    else
      (ind ++ "<" ++ t ++ attrsString a ++ ">")
        :: serializeL (ind ++ "\t") cs ++ [ind ++ "</" ++ t ++ ">"]

def serializeL (ind : String) : List Elem → List String
  | [] => []
  | c :: cs => serializeE ind c ++ serializeL ind cs

end

/-- The default DOCTYPE substituted when the loaded file carried none
(line 717 of the source). -/
def defaultDoctype : String :=
  "<!DOCTYPE MIDINameDocument PUBLIC \x22-//MIDI Manufacturers Association//DTD MIDINameDocument 1.0//EN\x22 \x22http://www.midi.org/dtds/MIDINameDocument10.dtd\x22>\n"

/-- Full file content: UTF-8 declaration, DOCTYPE line (which carries its
trailing newline), blank separator line, pretty-printed tree. -/
def serializeDocument (doctypeLine : String) (e : Elem) : String :=
  "<?xml version=\x221.0\x22 encoding=\x22UTF-8\x22?>\n"
    ++ (if doctypeLine == "" then defaultDoctype else doctypeLine)
    ++ "\n" ++ String.intercalate "\n" (serializeE "" e)

/-- DOCTYPE extraction (lines 506–510): the first raw line containing the
substring `<!DOCTYPE`, stripped, with a newline appended; `""` when none. -/
def extractDoctype (content : String) : String :=
  match (content.splitOn "\n").find? (fun l => (l.splitOn "<!DOCTYPE").length != 1) with
  | some l => l.trim ++ "\n"
  | none => ""

/-! ## The save wrapper (`save_midnam_structure`, request level) -/

/-- `datetime.now()` as passed to `strftime("%Y-%m-%d-%H-%M-%S")`. -/
structure Timestamp where
  year : Nat
  month : Nat
  day : Nat
  hour : Nat
  minute : Nat
  second : Nat

def pad2 (n : Nat) : String :=
  if n < 10 then "0" ++ toString n else toString n

def pad4 (n : Nat) : String :=
  if n < 10 then "000" ++ toString n
  else if n < 100 then "00" ++ toString n
  else if n < 1000 then "0" ++ toString n
  else toString n

/-- `strftime("%Y-%m-%d-%H-%M-%S")`. -/
def formatTimestamp (t : Timestamp) : String :=
  pad4 t.year ++ "-" ++ pad2 t.month ++ "-" ++ pad2 t.day ++ "-"
    ++ pad2 t.hour ++ "-" ++ pad2 t.minute ++ "-" ++ pad2 t.second

/-- The decoded request body of `save_midnam_structure`. -/
structure SaveRequest where
  file_path : Option String
  midnam : Option Payload

/-- The observable success outcome: the JSON response fields plus the file
effects (backup file content, new on-disk content). -/
structure SaveOk where
  backup : Option String
  file_path : String
  backupContent : String
  written : String

/-- `save_midnam_structure` at the request level.  `fileExists` and `onDisk`
stand for the state of the target path; `tree` is the parse of `onDisk`
(parse failures answer 422 before any of this and are not modelled here).
Order of effects, as in the source: 400 on missing fields, 404 when the path
does not exist, merge (a failure surfaces as 500 with nothing written),
normalize, *then* back up the current content to
`path + ".backup." + timestamp`, serialize, write, and answer
`{success, backup, file_path}`.  The backup field of a success response is
always the backup path — never null: a non-existing path was already
rejected with 404. -/
def saveMidnamStructure (req : SaveRequest) (fileExists : Bool) (onDisk : String)
    (tree : Elem) (now : Timestamp) : Except (Nat × String) SaveOk :=
  match req.file_path, req.midnam with
  | none, _ => .error (400, "Missing file_path or midnam data")
  | some _, none => .error (400, "Missing file_path or midnam data")
  | some fp, some p =>
    if fp == "" then .error (400, "Missing file_path or midnam data")
    else if !fileExists then .error (404, "File not found: " ++ fp)
    else
      match mergeStructure tree p with
      | .error e => .error (500, "Error saving file: " ++ e)
      | .ok merged =>
        let normalized := (ensureDtdCompliance merged).1
        let backupName := fp ++ ".backup." ++ formatTimestamp now
        .ok { backup := some backupName,
              file_path := fp,
              backupContent := onDisk,
              written := serializeDocument (extractDoctype onDisk) normalized }

/-! ## Patch program-change readers

Two code paths read a patch's program change; both try the direct
`ProgramChange` attribute first and fall back to the nested
`PatchMIDICommands/ProgramChange/@Number` structure — but their guards
differ: `get_device_details` (lines 1313–1325) defaults the attribute to
`'0'` and falls back when the value is falsy *or equal to `'0'`*, while
`reload_midnam` (lines 875–887) defaults to `''` and falls back when the
value is falsy (empty). -/

/-- Lines 1317–1325 (`get_device_details`). -/
def readProgramChangeDetails (patch : Elem) : String :=
  let pc := patch.getD "ProgramChange" "0"
  if pc == "" || pc == "0" then
    match patch.findTag "PatchMIDICommands" with
    | none => pc
    | some cmds =>
      match cmds.findTag "ProgramChange" with
      | none => pc
      | some pce => pce.getD "Number" "0"
  else pc

/-- Lines 879–887 (`reload_midnam`). -/
def readProgramChangeReload (patch : Elem) : String :=
  let pc := patch.getD "ProgramChange" ""
  if pc == "" then
    match patch.findTag "PatchMIDICommands" with
    | none => pc
    | some cmds =>
      match cmds.findTag "ProgramChange" with
      | none => pc
      | some pce => pce.getD "Number" ""
  else pc

/-! ## Observations used to state the claims -/

mutual

/-- The pre-normalization property claimed by C4: no `ChannelNameSet` has
more than one direct child tagged `NoteNameList` or `UsesNoteNameList`. -/
def atMostOneNoteRefE : Elem → Bool
  | .mk t _ cs =>
    (if t == "ChannelNameSet" then decide ((cs.filter isNoteRef).length ≤ 1) else true)
      && atMostOneNoteRefL cs

def atMostOneNoteRefL : List Elem → Bool
  | [] => true
  | c :: cs => atMostOneNoteRefE c && atMostOneNoteRefL cs

end

mutual

/-- Inside device-record subtrees, no `ChannelNameSet` keeps a direct
`NoteNameList` child (`inMaster` tracks being below a `MasterDeviceNames`). -/
def cnsFreeOfNLE (inMaster : Bool) : Elem → Bool
  | .mk t _ cs =>
    let b := inMaster || t == "MasterDeviceNames"
    (if inMaster && t == "ChannelNameSet" then
        cs.all (fun c => !(c.tag == "NoteNameList"))
      else true)
      && cnsFreeOfNLL b cs

def cnsFreeOfNLL (inMaster : Bool) : List Elem → Bool
  | [] => true
  | c :: cs => cnsFreeOfNLE inMaster c && cnsFreeOfNLL inMaster cs

end

mutual

/-- Every `PatchBank` node of the tree, with its full subtree, in document
pre-order. -/
def collectBanksE : Elem → List Elem
  | .mk t a cs => (if t == "PatchBank" then [.mk t a cs] else []) ++ collectBanksL cs

def collectBanksL : List Elem → List Elem
  | [] => []
  | c :: cs => collectBanksE c ++ collectBanksL cs

end

mutual

/-- No `SupportsStandardDeviceMode` subtree hides a `PatchBank` (in real
documents the element is empty; the merge deletes such subtrees wholesale). -/
def ssdmBankFreeE : Elem → Bool
  | .mk t _ cs =>
    (if t == "SupportsStandardDeviceMode" then countTagL "PatchBank" cs == 0 else true)
      && ssdmBankFreeL cs

def ssdmBankFreeL : List Elem → Bool
  | [] => true
  | c :: cs => ssdmBankFreeE c && ssdmBankFreeL cs

end

mutual

/-- No `PatchBank` subtree hides a `MasterDeviceNames` record. -/
def bankMasterFreeE : Elem → Bool
  | .mk t _ cs =>
    (if t == "PatchBank" then countTagL "MasterDeviceNames" cs == 0 else true)
      && bankMasterFreeL cs

def bankMasterFreeL : List Elem → Bool
  | [] => true
  | c :: cs => bankMasterFreeE c && bankMasterFreeL cs

end

mutual

/-- No `MasterDeviceNames` record nested inside another one (the DTD layout;
the source's `findall('.//MasterDeviceNames')` would visit a nested record a
second time). -/
def nestedMasterFreeE : Elem → Bool
  | .mk t _ cs =>
    (if t == "MasterDeviceNames" then countTagL "MasterDeviceNames" cs == 0 else true)
      && nestedMasterFreeL cs

def nestedMasterFreeL : List Elem → Bool
  | [] => true
  | c :: cs => nestedMasterFreeE c && nestedMasterFreeL cs

end

mutual

/-- Every `MasterDeviceNames` record of the tree has no direct `PatchBank`
child. -/
def noMasterDirectBankE : Elem → Bool
  | .mk t _ cs =>
    (if t == "MasterDeviceNames" then cs.all (fun c => !(c.tag == "PatchBank")) else true)
      && noMasterDirectBankL cs

def noMasterDirectBankL : List Elem → Bool
  | [] => true
  | c :: cs => noMasterDirectBankE c && noMasterDirectBankL cs

end

/-! ## State predicates and specification-side counts for the Normalizer -/

mutual

/-- Normal form of a subtree living inside a device record: every
`ChannelNameSet` anywhere in it has no direct `NoteNameList` child and does
not trigger the reorder test. -/
def cleanT : Elem → Bool
  | .mk t _ cs =>
    (if t == "ChannelNameSet" then
        cs.all (fun c => !(c.tag == "NoteNameList")) && !(needsReorder cs)
      else true)
      && cleanTL cs

def cleanTL : List Elem → Bool
  | [] => true
  | c :: cs => cleanT c && cleanTL cs

end

mutual

/-- Normal form of a subtree outside any device record: every
`MasterDeviceNames` subtree is in `cleanT` form. -/
def cleanF : Elem → Bool
  | .mk t _ cs => if t == "MasterDeviceNames" then cleanTL cs else cleanFL cs

def cleanFL : List Elem → Bool
  | [] => true
  | c :: cs => cleanF c && cleanFL cs

end

/-- The number of `fixes_applied` entries one `ChannelNameSet` with children
`cs` generates, read off the input: 1 when it has a direct `NoteNameList`
child, plus — evaluated on the children left after removing those note
lists — 1 for a needed reorder plus 1 for the excess-note-reference WARNING. -/
def cnsFixCount (cs : List Elem) : Nat :=
  let stripped := cs.filter (fun c => !(c.tag == "NoteNameList"))
  (if cs.any (fun c => c.tag == "NoteNameList") then 1 else 0)
    + (if needsReorder stripped then
        1 + (if 1 < ((stripped.filter isRef).filter isNoteRef).length then 1 else 0)
      else 0)

mutual

/-- Specification-side fix count: the sum of `cnsFixCount` over every
`ChannelNameSet` inside a device record, read off the input document. -/
def specFixCountE (inMaster : Bool) : Elem → Nat
  | .mk t _ cs =>
    let b := inMaster || t == "MasterDeviceNames"
    (if inMaster && t == "ChannelNameSet" then cnsFixCount cs else 0)
      + specFixCountL b cs

def specFixCountL (inMaster : Bool) : List Elem → Nat
  | [] => 0
  | c :: cs => specFixCountE inMaster c + specFixCountL inMaster cs

end

/-- Specification-side fix count of a whole document. -/
def specFixCount : Elem → Nat
  | .mk _ _ cs => specFixCountL false cs

mutual

/-- Stated from the words of claim C6: the number of `NoteNameList` nodes
moved out of `ChannelNameSet`s, i.e. the direct `NoteNameList` children of
`ChannelNameSet`s inside device records. -/
def claimMovedNLE (inMaster : Bool) : Elem → Nat
  | .mk t _ cs =>
    let b := inMaster || t == "MasterDeviceNames"
    (if inMaster && t == "ChannelNameSet" then
        (cs.filter (fun c => c.tag == "NoteNameList")).length
      else 0)
      + claimMovedNLL b cs

def claimMovedNLL (inMaster : Bool) : List Elem → Nat
  | [] => 0
  | c :: cs => claimMovedNLE inMaster c + claimMovedNLL inMaster cs

end

mutual

/-- Stated from the words of claim C6: the number of `ChannelNameSet`s the
normalizer reorders (the reorder test on the children left after the note
lists are moved out). -/
def claimReorderedE (inMaster : Bool) : Elem → Nat
  | .mk t _ cs =>
    let b := inMaster || t == "MasterDeviceNames"
    (if inMaster && t == "ChannelNameSet" then
        (if needsReorder (cs.filter (fun c => !(c.tag == "NoteNameList"))) then 1 else 0)
      else 0)
      + claimReorderedL b cs

def claimReorderedL (inMaster : Bool) : List Elem → Nat
  | [] => 0
  | c :: cs => claimReorderedE inMaster c + claimReorderedL inMaster cs

end

/-- Claim C6's accounting formula, stated from the claim's words: one fix
per moved `NoteNameList` plus one per reordered `ChannelNameSet`. -/
def claimC6Count : Elem → Nat
  | .mk _ _ cs => claimMovedNLL false cs + claimReorderedL false cs

/-! ## Concrete documents used as counterexamples and witnesses -/

/-- A channel name set with two `UsesNoteNameList` children and no patch
bank: the reorder test does not fire, so the normalizer keeps both. -/
def exC4doc : Elem :=
  .mk "MIDINameDocument" []
    [.mk "MasterDeviceNames" []
      [.mk "ChannelNameSet" [("Name", "S")]
        [.mk "AvailableForChannels" [] [],
         .mk "UsesNoteNameList" [("Name", "U1")] [],
         .mk "UsesNoteNameList" [("Name", "U2")] []]]]

/-- A device record with a `SupportsStandardDeviceMode` child; the merge of
an empty payload (no `supportsStandardDeviceMode` key) still removes it. -/
def exC2doc : Elem :=
  .mk "MIDINameDocument" []
    [.mk "MasterDeviceNames" []
      [.mk "Model" [] [],
       .mk "SupportsStandardDeviceMode" [("Name", "General MIDI")] [],
       .mk "ChannelNameSet" [("Name", "S")]
        [.mk "AvailableForChannels" [] [],
         .mk "PatchBank" [("Name", "B")] [.mk "PatchNameList" [] []]]]]

/-- Two sibling device records; the merge payload names only set `"A"`. -/
def exC5doc : Elem :=
  .mk "MIDINameDocument" []
    [.mk "MasterDeviceNames" [("m", "1")] [.mk "ChannelNameSet" [("Name", "A")] []],
     .mk "MasterDeviceNames" [("m", "2")] [.mk "ChannelNameSet" [("Name", "B")] []]]

def exC5payload : Payload :=
  ⟨some [⟨"A", none⟩], none, none, none, none, none, none⟩

/-- One channel name set holding two direct `NoteNameList` children and
nothing that triggers a reorder: two nodes move but only one fix entry is
recorded. -/
def exC6doc : Elem :=
  .mk "MIDINameDocument" []
    [.mk "MasterDeviceNames" []
      [.mk "ChannelNameSet" [("Name", "S")]
        [.mk "NoteNameList" [("Name", "N1")] [],
         .mk "NoteNameList" [("Name", "N2")] []]]]

/-- A `PatchBank` sitting directly under the device record: the normalizer
leaves it untouched (deletion happens in the merge's patch-bank step). -/
def exC7doc : Elem :=
  .mk "MIDINameDocument" []
    [.mk "MasterDeviceNames" []
      [.mk "PatchBank" [("Name", "Stray")] [.mk "PatchNameList" [] []]]]

/-- A reorder drops the second note reference *with its subtree*: the child
`<Extra/>` of the dropped `UsesNoteNameList` disappears although it is not a
note reference. -/
def exC10doc : Elem :=
  .mk "MIDINameDocument" []
    [.mk "MasterDeviceNames" []
      [.mk "ChannelNameSet" [("Name", "S")]
        [.mk "UsesNoteNameList" [("Name", "U1")] [],
         .mk "PatchBank" [("Name", "B")] [],
         .mk "UsesNoteNameList" [("Name", "U2")] [.mk "Extra" [] []]]]]

/-- A patch carrying both representations with attribute value `"0"`:
`get_device_details` reads the nested value `5`, not the attribute. -/
def exC9patch : Elem :=
  .mk "Patch" [("Name", "P"), ("Number", "0"), ("ProgramChange", "0")]
    [.mk "PatchMIDICommands" [] [.mk "ProgramChange" [("Number", "5")] []]]

/-- The document of the C1 witness: sets `A` and `B`, plus non-set
children. -/
def exC1doc : Elem :=
  .mk "MasterDeviceNames" []
    [.mk "Manufacturer" [] [],
     .mk "ChannelNameSet" [("Name", "A")]
      [.mk "AvailableForChannels" [("old", "1")] [.mk "AvailableChannel" [("Channel", "9")] []],
       .mk "UsesControlNameList" [("Name", "X")] []],
     .mk "Model" [] [],
     .mk "ChannelNameSet" [("Name", "B")]
      [.mk "AvailableForChannels" [] []]]

/-! # Theorems -/

/-- Structural induction for `Elem` with the membership-based hypothesis for
children. -/
theorem elem_ind {P : Elem → Prop}
    (h : ∀ t a cs, (∀ c, c ∈ cs → P c) → P (Elem.mk t a cs)) :
    ∀ e, P e :=
  fun e =>
    @Elem.rec P (fun cs => ∀ c, c ∈ cs → P c)
      h
      (fun c hc => absurd hc (List.not_mem_nil c))
      (fun hd tl hhd htl c hc => by
        rcases List.mem_cons.mp hc with h1 | h2
        · exact h1 ▸ hhd
        · exact htl c h2)
      e

/-- The normalizer never changes a node's tag or attributes. -/
theorem dtdFixE_tag_attrs (b : Bool) (e : Elem) :
    (dtdFixE b e).tree.tag = e.tag ∧ (dtdFixE b e).tree.attrs = e.attrs := by
  cases e with
  | mk t a cs =>
    simp only [dtdFixE]
    split
    · exact ⟨rfl, rfl⟩
    · split
      · exact ⟨rfl, rfl⟩
      · exact ⟨rfl, rfl⟩

/-- **C4, counterexample.**  Claim C4 states that after one run of the
normalizer no `ChannelNameSet` has more than one direct `NoteNameList` /
`UsesNoteNameList` child.  On a set holding two `UsesNoteNameList` children
and no `PatchBank` the reorder test does not fire, truncation never happens,
and both references survive normalization. -/
theorem C4_counterexample :
    atMostOneNoteRefE (ensureDtdCompliance exC4doc).1 = false
      ∧ ensureDtdCompliance exC4doc = (exC4doc, 0) :=
  ⟨rfl, rfl⟩

/-- **C6, counterexample.**  Claim C6 states the fix count is one per moved
`NoteNameList` plus one per reordered set.  A set with two direct
`NoteNameList` children and no reorder moves two nodes but records a single
fix entry: the count is 1 where the claim demands 2. -/
theorem C6_counterexample :
    (ensureDtdCompliance exC6doc).2 = 1 ∧ claimC6Count exC6doc = 2
      ∧ ¬ ((ensureDtdCompliance exC6doc).2 = claimC6Count exC6doc) := by
  refine ⟨rfl, rfl, ?_⟩
  decide

/-- **C7, counterexample.**  Claim C7 states the *Normalizer* deletes any
`PatchBank` directly under the device record.  It does not: normalization
returns this document unchanged with fix count 0 and the stray bank still in
place. -/
theorem C7_counterexample :
    ensureDtdCompliance exC7doc = (exC7doc, 0)
      ∧ noMasterDirectBankE (ensureDtdCompliance exC7doc).1 = false :=
  ⟨rfl, rfl⟩

/-- **C10, counterexample.**  Claim C10 states normalization loses nothing
but excess note references themselves.  Dropping the second note reference
of a reordered set drops its whole subtree: the `<Extra/>` child — not a
note reference — is present before normalization and gone after it. -/
theorem C10_counterexample :
    countTag "Extra" exC10doc = 1
      ∧ countTag "Extra" (ensureDtdCompliance exC10doc).1 = 0
      ∧ noteRefTag "Extra" = false :=
  ⟨rfl, rfl, rfl⟩

/-- **C5, counterexample.**  Claim C5 states the merge mutates only the
first device record.  With two sibling records and a payload naming only set
`"A"`, the second record's set `"B"` is deleted and a set `"A"` is created
in its place: the second record changes. -/
theorem C5_counterexample :
    mergeStructure exC5doc exC5payload =
        .ok (.mk "MIDINameDocument" []
          [.mk "MasterDeviceNames" [("m", "1")] [.mk "ChannelNameSet" [("Name", "A")] []],
           .mk "MasterDeviceNames" [("m", "2")] [.mk "ChannelNameSet" [("Name", "A")] []]])
      ∧ ¬ (cnsKey (((Elem.mk "MIDINameDocument" []
            [.mk "MasterDeviceNames" [("m", "1")] [.mk "ChannelNameSet" [("Name", "A")] []],
             .mk "MasterDeviceNames" [("m", "2")] [.mk "ChannelNameSet" [("Name", "A")] []]]
            ).children.getD 1 default).children.getD 0 default)
          = cnsKey ((exC5doc.children.getD 1 default).children.getD 0 default)) := by
  refine ⟨rfl, ?_⟩
  decide

/-- **C9, counterexample.**  Claim C9 states reading prefers the direct
`ProgramChange` attribute and falls back only when it is absent.  On
`exC9patch` the attribute *is present* (value `"0"`), so the claim demands
the reader return `"0"`; `get_device_details` instead falls back and returns
the nested `PatchMIDICommands/ProgramChange/@Number` value `"5"`. -/
theorem C9_counterexample :
    exC9patch.get "ProgramChange" = some "0"
      ∧ readProgramChangeDetails exC9patch = "5"
      ∧ ("5" : String) ≠ "0" :=
  ⟨rfl, rfl, by decide⟩

/-- **C8, counterexample.**  Claim C8 states that when the destination file
does not exist the save succeeds with a null backup.  The handler rejects a
non-existing path with 404 before doing anything: no success result exists
in that case. -/
theorem C8_counterexample :
    saveMidnamStructure ⟨some "f.midnam", some Payload.empty⟩ false "" exC2doc
        ⟨2026, 10, 12, 0, 0, 0⟩
      = .error (404, "File not found: f.midnam") :=
  rfl

/-- **C9 (amended).**  Program-change resolution: reading prefers the direct
`ProgramChange` attribute *unless it is empty (`reload_midnam`) or
empty-or-`"0"` (`get_device_details`)* — including when the attribute is
*present* with such a value — in which cases it falls back to the nested
`PatchMIDICommands/ProgramChange/@Number` form; and every `Patch` written by
`_create_patch_bank` carries its program change as the direct attribute with
no nested children at all. -/
theorem C9_program_change_resolution :
    (∀ p v, Elem.get p "ProgramChange" = some v → v ≠ "" → v ≠ "0" →
        readProgramChangeDetails p = v)
      ∧ (∀ p v, Elem.get p "ProgramChange" = some v → v ≠ "" →
          readProgramChangeReload p = v)
      ∧ (∀ p c pc n,
          (Elem.get p "ProgramChange" = none ∨ Elem.get p "ProgramChange" = some ""
            ∨ Elem.get p "ProgramChange" = some "0") →
          Elem.findTag p "PatchMIDICommands" = some c →
          Elem.findTag c "ProgramChange" = some pc →
          Elem.get pc "Number" = some n →
          readProgramChangeDetails p = n)
      ∧ (∀ p c pc n,
          (Elem.get p "ProgramChange" = none ∨ Elem.get p "ProgramChange" = some "") →
          Elem.findTag p "PatchMIDICommands" = some c →
          Elem.findTag c "ProgramChange" = some pc →
          Elem.get pc "Number" = some n →
          readProgramChangeReload p = n)
      ∧ (∀ fb c, c ∈ (createPatchBank fb).children → c.tag = "PatchNameList" →
          ∀ pe, pe ∈ c.children →
            pe.children = [] ∧ ∃ w, Elem.get pe "ProgramChange" = some w) := by
  refine ⟨?_, ?_, ?_, ?_, ?_⟩
  · intro p v hv h0 h1
    simp only [readProgramChangeDetails, Elem.getD, hv, Option.getD_some]
    have : (v == "" || v == "0") = false := by
      simp [h0, h1]
    simp [this]
  · intro p v hv h0
    simp only [readProgramChangeReload, Elem.getD, hv, Option.getD_some]
    have : (v == "") = false := by simp [h0]
    simp [this]
  · intro p c pc n hattr hc hpc hn
    rcases hattr with h | h | h
    · simp [readProgramChangeDetails, Elem.getD, h, hc, hpc, hn]
    · simp [readProgramChangeDetails, Elem.getD, h, hc, hpc, hn]
    · simp [readProgramChangeDetails, Elem.getD, h, hc, hpc, hn]
  · intro p c pc n hattr hc hpc hn
    rcases hattr with h | h
    · simp [readProgramChangeReload, Elem.getD, h, hc, hpc, hn]
    · simp [readProgramChangeReload, Elem.getD, h, hc, hpc, hn]
  · intro fb c hc htag pe hpe
    simp only [createPatchBank, Elem.children] at hc
    rcases List.mem_append.mp hc with h | h
    · exfalso
      rcases hm : fb.midi_commands with _ | l
      · rw [hm] at h
        simp at h
      · rw [hm] at h
        by_cases he : l.isEmpty
        · simp [he] at h
        · simp [he] at h
          subst h
          simp only [Elem.tag] at htag
          exact absurd htag (by decide)
    · simp only [List.mem_singleton] at h
      subst h
      simp only [Elem.children] at hpe
      rcases hp : fb.patch with _ | l
      · rw [hp] at hpe
        simp at hpe
      · rw [hp] at hpe
        simp only [List.mem_map] at hpe
        obtain ⟨pd, _, rfl⟩ := hpe
        exact ⟨rfl, ⟨pd.programChange.getD "", rfl⟩⟩

/-- **C9, witness.**  The third and fourth conjuncts exercise the fallback
with the attribute *present* (`"0"` for the details reader, `""` for the
reload reader). -/
theorem C9_witness :
    readProgramChangeDetails (.mk "Patch" [("ProgramChange", "7")] []) = "7"
      ∧ readProgramChangeReload (.mk "Patch" [("ProgramChange", "0")] []) = "0"
      ∧ readProgramChangeDetails
          (.mk "Patch" [("ProgramChange", "0")]
            [.mk "PatchMIDICommands" [] [.mk "ProgramChange" [("Number", "5")] []]]) = "5"
      ∧ readProgramChangeReload
          (.mk "Patch" [("ProgramChange", "")]
            [.mk "PatchMIDICommands" [] [.mk "ProgramChange" [("Number", "6")] []]]) = "6"
      ∧ (Elem.mk "Patch" [("Name", "P"), ("Number", "1"), ("ProgramChange", "9")] []).children = [] := by
  obtain ⟨h1, h2, h3, h4, h5⟩ := C9_program_change_resolution
  refine ⟨h1 _ "7" rfl (by decide) (by decide), h2 _ "0" rfl (by decide), ?_, ?_, ?_⟩
  · exact h3 (.mk "Patch" [("ProgramChange", "0")]
        [.mk "PatchMIDICommands" [] [.mk "ProgramChange" [("Number", "5")] []]])
      (.mk "PatchMIDICommands" [] [.mk "ProgramChange" [("Number", "5")] []])
      (.mk "ProgramChange" [("Number", "5")] []) "5"
      (Or.inr (Or.inr rfl)) rfl rfl rfl
  · exact h4 (.mk "Patch" [("ProgramChange", "")]
        [.mk "PatchMIDICommands" [] [.mk "ProgramChange" [("Number", "6")] []]])
      (.mk "PatchMIDICommands" [] [.mk "ProgramChange" [("Number", "6")] []])
      (.mk "ProgramChange" [("Number", "6")] []) "6"
      (Or.inr rfl) rfl rfl rfl
  · exact (h5 ⟨some "B", some "S", none, some [⟨some "P", some "1", some "9"⟩]⟩
      (.mk "PatchNameList" []
        [.mk "Patch" [("Name", "P"), ("Number", "1"), ("ProgramChange", "9")] []])
      (by simp [createPatchBank, Elem.children]) rfl
      (.mk "Patch" [("Name", "P"), ("Number", "1"), ("ProgramChange", "9")] [])
      (by simp [Elem.children])).1

/-- **C8 (amended).**  Backup contract: `save_midnam_structure` requires the
destination file to exist and rejects a non-existing path with 404 before
doing anything; on every successful save the current on-disk content is
copied to `path + ".backup." + <YYYY-MM-DD-HH-MM-SS>` and that path is
returned in the response's `backup` field — a success response never carries
a null backup. -/
theorem C8_backup_contract :
    (∀ fp p onDisk tree now r, fp ≠ "" →
        saveMidnamStructure ⟨some fp, some p⟩ true onDisk tree now = .ok r →
        r.backup = some (fp ++ ".backup." ++ formatTimestamp now)
          ∧ r.backupContent = onDisk ∧ r.file_path = fp)
      ∧ (∀ fp p onDisk tree now, fp ≠ "" →
          saveMidnamStructure ⟨some fp, some p⟩ false onDisk tree now
            = .error (404, "File not found: " ++ fp)) := by
  constructor
  · intro fp p onDisk tree now r hfp hok
    have hfp' : (fp == "") = false := by simp [hfp]
    simp only [saveMidnamStructure, hfp', Bool.false_eq_true, if_false, Bool.not_true] at hok
    rcases hm : mergeStructure tree p with e | merged
    · rw [hm] at hok
      simp at hok
    · rw [hm] at hok
      simp only [Except.ok.injEq] at hok
      subst hok
      exact ⟨rfl, rfl, rfl⟩
  · intro fp p onDisk tree now hfp
    have hfp' : (fp == "") = false := by simp [hfp]
    simp [saveMidnamStructure, hfp']

/-- **C8, witness.** -/
theorem C8_witness :
    ((⟨some "x.midnam.backup.2026-10-12-01-02-03", "x.midnam", "old content",
        serializeDocument (extractDoctype "old content") (ensureDtdCompliance exC7doc).1⟩
        : SaveOk).backup
      = some ("x.midnam" ++ ".backup." ++ formatTimestamp ⟨2026, 10, 12, 1, 2, 3⟩))
    ∧ saveMidnamStructure ⟨some "y.midnam", some Payload.empty⟩ false "" exC7doc
        ⟨2026, 10, 12, 1, 2, 3⟩ = .error (404, "File not found: " ++ "y.midnam") := by
  constructor
  · exact (C8_backup_contract.1 "x.midnam" Payload.empty "old content" exC7doc
      ⟨2026, 10, 12, 1, 2, 3⟩ _ (by decide) rfl).1
  · exact C8_backup_contract.2 "y.midnam" Payload.empty "" exC7doc ⟨2026, 10, 12, 1, 2, 3⟩
      (by decide)

/-- The patch-bank rewrite never changes a node's tag. -/
theorem rewriteBanksE_tag (pl : List FrontBank) (e : Elem) :
    (rewriteBanksE pl e).tag = e.tag := by
  cases e with
  | mk t a cs =>
    simp only [rewriteBanksE]
    split <;> rfl

/-- The active-control-list rewrite never changes a node's tag. -/
theorem usesCtrlE_tag (nm : String) (e : Elem) :
    (usesCtrlE nm e).tag = e.tag := by
  cases e with
  | mk t a cs =>
    simp only [usesCtrlE]
    split <;> rfl

theorem rewriteBanksL_no_bank (pl : List FrontBank) :
    ∀ cs : List Elem, (∀ c ∈ cs, (c.tag == "PatchBank") = false) →
      ∀ c ∈ rewriteBanksL pl cs, (c.tag == "PatchBank") = false := by
  intro cs
  induction cs with
  | nil => intro _ c hc; simp [rewriteBanksL] at hc
  | cons hd tl ih =>
    intro h c hc
    simp only [rewriteBanksL, List.mem_cons] at hc
    rcases hc with rfl | hc
    · rw [rewriteBanksE_tag]
      exact h hd (by simp)
    · exact ih (fun c' hc' => h c' (by simp [hc'])) c hc

theorem usesCtrlL_no_bank (nm : String) :
    ∀ cs : List Elem, (∀ c ∈ cs, (c.tag == "PatchBank") = false) →
      ∀ c ∈ usesCtrlL nm cs, (c.tag == "PatchBank") = false := by
  intro cs
  induction cs with
  | nil => intro _ c hc; simp [usesCtrlL] at hc
  | cons hd tl ih =>
    intro h c hc
    simp only [usesCtrlL, List.mem_cons] at hc
    rcases hc with rfl | hc
    · rw [usesCtrlE_tag]
      exact h hd (by simp)
    · exact ih (fun c' hc' => h c' (by simp [hc'])) c hc

/-- Membership in `insertIdx` comes from the inserted element or the list
(no bound on the index needed: an out-of-range insert is the identity). -/
theorem mem_insertIdx_cases {x c : Elem} :
    ∀ (n : Nat) (cs : List Elem), c ∈ List.insertIdx n x cs → c = x ∨ c ∈ cs := by
  intro n
  induction n with
  | zero =>
    intro cs hc
    rcases cs with _ | ⟨hd, tl⟩ <;> simpa using hc
  | succ m ih =>
    intro cs hc
    rcases cs with _ | ⟨hd, tl⟩
    · simp at hc
    · rw [List.insertIdx_succ_cons] at hc
      rcases List.mem_cons.mp hc with rfl | hc'
      · exact Or.inr (by simp)
      · rcases ih tl hc' with h | h
        · exact Or.inl h
        · exact Or.inr (by simp [h])

/-- **C7 (amended).**  The Normalizer leaves device-record-level `PatchBank`s
in place (see `C7_counterexample`); it is the merge engine's patch-bank step
that deletes them: whenever the payload carries a `patchList` section, the
merged device record has no direct `PatchBank` child — banks are re-created
only inside `ChannelNameSet`s, and no later section re-adds one at record
level. -/
theorem C7_merge_removes_record_level_banks :
    ∀ (p : Payload) (pl : List FrontBank) (t : String)
      (a : List (String × String)) (cs : List Elem) (m : Elem),
      p.patchList = some pl →
      mergeMaster p (.mk t a cs) = .ok m →
      ∀ c ∈ m.children, (c.tag == "PatchBank") = false := by
  intro p pl t a cs m hpl hm c hc
  simp only [mergeMaster] at hm
  rcases hcs1 : mergeChannelNameSets p cs with e | cs1
  · rw [hcs1] at hm
    simp at hm
  · rw [hcs1] at hm
    simp only [Except.ok.injEq] at hm
    subst hm
    simp only [Elem.children] at hc
    -- peel the pipeline from the outside in
    have h2 : ∀ c' ∈ mergePatchList p cs1, (c'.tag == "PatchBank") = false := by
      intro c' hc'
      simp only [mergePatchList, hpl] at hc'
      exact rewriteBanksL_no_bank pl _
        (fun x hx => by
          have := List.mem_filter.mp hx
          simpa using this.2) c' hc'
    have h3 : ∀ c' ∈ mergeNoteLists p (mergePatchList p cs1),
        (c'.tag == "PatchBank") = false := by
      intro c' hc'
      simp only [mergeNoteLists] at hc'
      rcases hnl : p.note_lists with _ | ls
      · rw [hnl] at hc'
        exact h2 c' hc'
      · rw [hnl] at hc'
        rcases List.mem_append.mp hc' with h | h
        · exact h2 c' (List.mem_of_mem_filter h)
        · obtain ⟨nl, _, rfl⟩ := List.mem_map.mp h
          rfl
    have h4 : ∀ c' ∈ mergeControlLists p (mergeNoteLists p (mergePatchList p cs1)),
        (c'.tag == "PatchBank") = false := by
      intro c' hc'
      simp only [mergeControlLists] at hc'
      rcases hcl : p.control_lists with _ | ls
      · rw [hcl] at hc'
        exact h3 c' hc'
      · rw [hcl] at hc'
        rcases List.mem_append.mp hc' with h | h
        · exact h3 c' (List.mem_of_mem_filter h)
        · obtain ⟨cl, _, rfl⟩ := List.mem_map.mp h
          rfl
    have h5 : ∀ c' ∈ mergeActiveControl p
        (mergeControlLists p (mergeNoteLists p (mergePatchList p cs1))),
        (c'.tag == "PatchBank") = false := by
      intro c' hc'
      simp only [mergeActiveControl] at hc'
      rcases hac : p.activeControlListName with _ | nm
      · rw [hac] at hc'
        exact h4 c' hc'
      · rw [hac] at hc'
        by_cases hnm : (nm == "") = true
        · simp only [hnm] at hc'
          exact h4 c' hc'
        · simp only [hnm] at hc'
          exact usesCtrlL_no_bank nm _ h4 c' hc'
    -- the SSDM step
    simp only [mergeSSDM] at hc
    by_cases hflag : p.supportsStandardDeviceMode.getD false = true
    · rw [if_pos hflag] at hc
      rcases mem_insertIdx_cases _ _ hc with rfl | hmem
      · rfl
      · exact h5 c (List.mem_of_mem_filter hmem)
    · rw [if_neg hflag] at hc
      exact h5 c (List.mem_of_mem_filter hc)

/-- **C7, witness.** -/
theorem C7_witness :
    ((Elem.mk "MasterDeviceNames" []
        [.mk "ChannelNameSet" [("Name", "S")]
          [.mk "AvailableForChannels" [] [],
           .mk "PatchBank" [("Name", "Patches")]
             [.mk "PatchNameList" []
               [.mk "Patch" [("Name", "New Patch"), ("Number", "1"), ("ProgramChange", "1")] []]]]]
        : Elem).children.all (fun c => !(c.tag == "PatchBank"))) = true := by
  rw [List.all_eq_true]
  intro c hc
  have h := C7_merge_removes_record_level_banks
    ⟨none, some [⟨some "Patches", some "S", none, some [⟨some "New Patch", some "1", some "1"⟩]⟩],
     none, none, none, none, none⟩
    [⟨some "Patches", some "S", none, some [⟨some "New Patch", some "1", some "1"⟩]⟩]
    "MasterDeviceNames" []
    [.mk "PatchBank" [("Name", "Stray")] [],
     .mk "ChannelNameSet" [("Name", "S")]
      [.mk "AvailableForChannels" [] [], .mk "PatchBank" [("Name", "Old")] []]]
    _ rfl rfl c hc
  rw [h]
  rfl

/-- **C5 (amended).**  `mergeStructure` applies the payload to *every*
`MasterDeviceNames` record (the source iterates
`root.findall('.//MasterDeviceNames')`), not only the first: with two device
records both are rewritten by `mergeMaster`, the second exactly like the
first. -/
theorem C5_merge_hits_every_record :
    ∀ (ra : List (String × String)) (m1 m2 m1' m2' : Elem) (p : Payload),
      m1.tag = "MasterDeviceNames" → m2.tag = "MasterDeviceNames" →
      mergeMaster p m1 = .ok m1' → mergeMaster p m2 = .ok m2' →
      mergeStructure (.mk "MIDINameDocument" ra [m1, m2]) p
        = .ok (.mk "MIDINameDocument" ra [m1', m2']) := by
  intro ra m1 m2 m1' m2' p h1 h2 hm1 hm2
  cases m1 with
  | mk t1 a1 cs1 =>
    cases m2 with
    | mk t2 a2 cs2 =>
      simp only [Elem.tag] at h1 h2
      subst h1
      subst h2
      simp only [mergeStructure, mergeL, mergeE, beq_self_eq_true, if_true]
      rw [hm1, hm2]

/-- **C5, witness.** -/
theorem C5_witness :
    mergeStructure
        (.mk "MIDINameDocument" []
          [.mk "MasterDeviceNames" [("m", "1")] [.mk "ChannelNameSet" [("Name", "A")] []],
           .mk "MasterDeviceNames" [("m", "2")] [.mk "ChannelNameSet" [("Name", "C")] []]])
        exC5payload
      = .ok (.mk "MIDINameDocument" []
          [.mk "MasterDeviceNames" [("m", "1")] [.mk "ChannelNameSet" [("Name", "A")] []],
           .mk "MasterDeviceNames" [("m", "2")] [.mk "ChannelNameSet" [("Name", "A")] []]]) := by
  exact C5_merge_hits_every_record []
    (.mk "MasterDeviceNames" [("m", "1")] [.mk "ChannelNameSet" [("Name", "A")] []])
    (.mk "MasterDeviceNames" [("m", "2")] [.mk "ChannelNameSet" [("Name", "C")] []])
    (.mk "MasterDeviceNames" [("m", "1")] [.mk "ChannelNameSet" [("Name", "A")] []])
    (.mk "MasterDeviceNames" [("m", "2")] [.mk "ChannelNameSet" [("Name", "A")] []])
    exC5payload rfl rfl rfl rfl

/-- `dtdFixL` is the elementwise map of `dtdFixE`. -/
theorem dtdFixL_eq_map (b : Bool) :
    ∀ cs : List Elem, dtdFixL b cs = cs.map (dtdFixE b) := by
  intro cs
  induction cs with
  | nil => rfl
  | cons hd tl ih => simp only [dtdFixL, ih, List.map_cons]

/-- Membership in the reordered child list comes from the original list. -/
theorem reorderCNSChildren_mem (kept : List Elem) :
    ∀ x ∈ (reorderCNSChildren kept).1, x ∈ kept := by
  intro x hx
  simp only [reorderCNSChildren] at hx
  by_cases hr : needsReorder kept = true
  · rw [if_pos hr] at hx
    simp only [List.mem_append] at hx
    rcases hx with ((((h | h) | h) | h) | h)
    · exact List.mem_of_mem_filter h
    · exact List.mem_of_mem_filter (List.mem_of_mem_filter (List.mem_of_mem_take h))
    · exact List.mem_of_mem_filter (List.mem_of_mem_filter h)
    · exact List.mem_of_mem_filter h
    · exact List.mem_of_mem_filter h
  · rw [if_neg hr] at hx
    exact hx

/-- Pointwise `cnsFreeOfNLE` gives the list form. -/
theorem cnsFreeOfNLL_of_mem (b : Bool) :
    ∀ cs : List Elem, (∀ x ∈ cs, cnsFreeOfNLE b x = true) → cnsFreeOfNLL b cs = true := by
  intro cs h
  induction cs with
  | nil => rfl
  | cons hd tl ih =>
    simp only [cnsFreeOfNLL, Bool.and_eq_true]
    exact ⟨h hd (by simp), ih (fun x hx => h x (by simp [hx]))⟩

/-- The channel-name-set child processing yields only note-list-free pieces:
kept children are not tagged `NoteNameList` and every output subtree keeps
the no-note-list-in-set invariant. -/
theorem dtdFixCNSKids_cnsfree :
    ∀ cs : List Elem,
      (∀ c ∈ cs, cnsFreeOfNLE true ((dtdFixE true c).tree) = true
        ∧ (∀ m ∈ (dtdFixE true c).moved, cnsFreeOfNLE true m = true)) →
      (∀ x ∈ (dtdFixCNSKids cs).kept,
          (x.tag == "NoteNameList") = false ∧ cnsFreeOfNLE true x = true)
        ∧ (∀ x ∈ (dtdFixCNSKids cs).directNL, cnsFreeOfNLE true x = true)
        ∧ (∀ x ∈ (dtdFixCNSKids cs).deepMoved, cnsFreeOfNLE true x = true) := by
  intro cs
  induction cs with
  | nil =>
    intro _
    refine ⟨?_, ?_, ?_⟩ <;> intro x hx <;> simp [dtdFixCNSKids] at hx
  | cons hd tl ih =>
    intro h
    obtain ⟨ihk, ihd, ihm⟩ := ih (fun c hc => h c (by simp [hc]))
    obtain ⟨hhd1, hhd2⟩ := h hd (by simp)
    by_cases ht : (hd.tag == "NoteNameList") = true
    · have hsimp : dtdFixCNSKids (hd :: tl) =
          ⟨(dtdFixCNSKids tl).kept,
           (dtdFixE true hd).tree :: (dtdFixCNSKids tl).directNL,
           (dtdFixE true hd).moved ++ (dtdFixCNSKids tl).deepMoved,
           (dtdFixE true hd).dropped ++ (dtdFixCNSKids tl).dropped,
           (dtdFixE true hd).fixes + (dtdFixCNSKids tl).fixes⟩ := by
        simp only [dtdFixCNSKids, ht, if_true]
      rw [hsimp]
      refine ⟨ihk, ?_, ?_⟩
      · intro x hx
        rcases List.mem_cons.mp hx with rfl | hx'
        · exact hhd1
        · exact ihd x hx'
      · intro x hx
        rcases List.mem_append.mp hx with hx' | hx'
        · exact hhd2 x hx'
        · exact ihm x hx'
    · have ht' : (hd.tag == "NoteNameList") = false := by simpa using ht
      have hsimp : dtdFixCNSKids (hd :: tl) =
          ⟨(dtdFixE true hd).tree :: (dtdFixCNSKids tl).kept,
           (dtdFixCNSKids tl).directNL,
           (dtdFixE true hd).moved ++ (dtdFixCNSKids tl).deepMoved,
           (dtdFixE true hd).dropped ++ (dtdFixCNSKids tl).dropped,
           (dtdFixE true hd).fixes + (dtdFixCNSKids tl).fixes⟩ := by
        simp only [dtdFixCNSKids, ht', Bool.false_eq_true, if_false]
      rw [hsimp]
      refine ⟨?_, ihd, ?_⟩
      · intro x hx
        rcases List.mem_cons.mp hx with rfl | hx'
        · constructor
          · rw [(dtdFixE_tag_attrs true hd).1]
            exact ht'
          · exact hhd1
        · exact ihk x hx'
      · intro x hx
        rcases List.mem_append.mp hx with hx' | hx'
        · exact hhd2 x hx'
        · exact ihm x hx'

/-- Inside a device record, normalization establishes the
no-note-list-in-set invariant on the rewritten subtree and on every moved
note list. -/
theorem dtdFixE_true_cnsfree :
    ∀ e : Elem, cnsFreeOfNLE true ((dtdFixE true e).tree) = true
      ∧ (∀ m ∈ (dtdFixE true e).moved, cnsFreeOfNLE true m = true) := by
  refine elem_ind ?_
  intro t a cs ih
  by_cases ht : (t == "ChannelNameSet") = true
  · have hsimp : dtdFixE true (.mk t a cs) =
        { tree := .mk t a (reorderCNSChildren (dtdFixCNSKids cs).kept).1,
          moved := (dtdFixCNSKids cs).directNL ++ (dtdFixCNSKids cs).deepMoved,
          dropped := (reorderCNSChildren (dtdFixCNSKids cs).kept).2.1
            ++ (dtdFixCNSKids cs).dropped,
          fixes := (if (dtdFixCNSKids cs).directNL.isEmpty then 0 else 1)
            + (reorderCNSChildren (dtdFixCNSKids cs).kept).2.2 + (dtdFixCNSKids cs).fixes } := by
      simp only [dtdFixE, Bool.not_true, Bool.false_and, Bool.false_eq_true, if_false,
        Bool.true_and, ht, if_true]
    obtain ⟨hk, hd, hm⟩ := dtdFixCNSKids_cnsfree cs ih
    rw [hsimp]
    constructor
    · simp only [cnsFreeOfNLE, Bool.true_and, Bool.true_or, ht, if_true, Bool.and_eq_true]
      constructor
      · rw [List.all_eq_true]
        intro x hx
        simpa using (hk x (reorderCNSChildren_mem _ x hx)).1
      · exact cnsFreeOfNLL_of_mem true _
          (fun x hx => (hk x (reorderCNSChildren_mem _ x hx)).2)
    · intro m hmem
      rcases List.mem_append.mp hmem with h | h
      · exact hd m h
      · exact hm m h
  · have ht' : (t == "ChannelNameSet") = false := by simpa using ht
    have hsimp : dtdFixE true (.mk t a cs) =
        { tree := .mk t a ((dtdFixL true cs).map (·.tree)),
          moved := (dtdFixL true cs).flatMap (·.moved),
          dropped := (dtdFixL true cs).flatMap (·.dropped),
          fixes := ((dtdFixL true cs).map (·.fixes)).sum } := by
      simp only [dtdFixE, Bool.not_true, Bool.false_and, Bool.false_eq_true, if_false,
        Bool.true_and, ht', if_false]
    rw [hsimp]
    constructor
    · simp only [cnsFreeOfNLE, Bool.true_and, Bool.true_or, ht', Bool.false_eq_true, if_false]
      refine cnsFreeOfNLL_of_mem true _ ?_
      intro x hx
      rw [dtdFixL_eq_map, List.map_map] at hx
      obtain ⟨c, hc, rfl⟩ := List.mem_map.mp hx
      exact (ih c hc).1
    · intro m hmem
      rw [dtdFixL_eq_map] at hmem
      simp only [List.flatMap_map] at hmem
      obtain ⟨c, hc, hmc⟩ := List.mem_flatMap.mp hmem
      exact (ih c hc).2 m hmc

/-- Outside device records, normalization establishes the
no-note-list-in-set invariant everywhere below. -/
theorem dtdFixE_false_cnsfree :
    ∀ e : Elem, cnsFreeOfNLE false ((dtdFixE false e).tree) = true := by
  refine elem_ind ?_
  intro t a cs ih
  by_cases ht : (t == "MasterDeviceNames") = true
  · have hsimp : dtdFixE false (.mk t a cs) =
        { tree := .mk t a ((dtdFixL true cs).map (·.tree) ++ (dtdFixL true cs).flatMap (·.moved)),
          moved := [],
          dropped := (dtdFixL true cs).flatMap (·.dropped),
          fixes := ((dtdFixL true cs).map (·.fixes)).sum } := by
      simp only [dtdFixE, Bool.not_false, Bool.true_and, ht, if_true]
    rw [hsimp]
    simp only [cnsFreeOfNLE, Bool.false_and, Bool.false_eq_true, if_false, Bool.true_and,
      Bool.false_or, ht]
    refine cnsFreeOfNLL_of_mem true _ ?_
    intro x hx
    rcases List.mem_append.mp hx with h | h
    · rw [dtdFixL_eq_map, List.map_map] at h
      obtain ⟨c, _, rfl⟩ := List.mem_map.mp h
      exact (dtdFixE_true_cnsfree c).1
    · rw [dtdFixL_eq_map] at h
      simp only [List.flatMap_map] at h
      obtain ⟨c, _, hmc⟩ := List.mem_flatMap.mp h
      exact (dtdFixE_true_cnsfree c).2 x hmc
  · have ht' : (t == "MasterDeviceNames") = false := by simpa using ht
    have hsimp : dtdFixE false (.mk t a cs) =
        { tree := .mk t a ((dtdFixL false cs).map (·.tree)),
          moved := (dtdFixL false cs).flatMap (·.moved),
          dropped := (dtdFixL false cs).flatMap (·.dropped),
          fixes := ((dtdFixL false cs).map (·.fixes)).sum } := by
      simp only [dtdFixE, Bool.not_false, Bool.true_and, Bool.false_and, ht',
        Bool.false_eq_true, if_false]
    rw [hsimp]
    simp only [cnsFreeOfNLE, Bool.false_and, Bool.false_eq_true, if_false, Bool.true_and,
      Bool.false_or, ht']
    refine cnsFreeOfNLL_of_mem false _ ?_
    intro x hx
    rw [dtdFixL_eq_map, List.map_map] at hx
    obtain ⟨c, hc, rfl⟩ := List.mem_map.mp hx
    exact ih c hc

/-- **C4 (amended).**  After one run of the normalizer, no `ChannelNameSet`
inside a device record keeps *any* direct `NoteNameList` child (they are all
moved to the record level); but truncation of note references to one happens
only for `ChannelNameSet`s that get reordered, so a set whose references all
precede its first `PatchBank` may keep several `UsesNoteNameList` children
(see `C4_counterexample`).  The document root is the `MIDINameDocument`
element, not a device record. -/
theorem C4_no_note_list_left_in_sets :
    ∀ d : Elem, (d.tag == "MasterDeviceNames") = false →
      cnsFreeOfNLE false (ensureDtdCompliance d).1 = true := by
  intro d hroot
  cases d with
  | mk t a cs =>
    simp only [Elem.tag] at hroot
    simp only [ensureDtdCompliance]
    simp only [cnsFreeOfNLE, Bool.false_and, Bool.false_eq_true, if_false, Bool.true_and,
      Bool.false_or, hroot]
    refine cnsFreeOfNLL_of_mem false _ ?_
    intro x hx
    rw [dtdFixL_eq_map, List.map_map] at hx
    obtain ⟨c, _, rfl⟩ := List.mem_map.mp hx
    exact dtdFixE_false_cnsfree c

/-- **C4, witness.** -/
theorem C4_witness :
    cnsFreeOfNLE false (ensureDtdCompliance exC6doc).1 = true :=
  C4_no_note_list_left_in_sets exC6doc rfl

/-- `refAfterBank` only looks at tags. -/
theorem refAfterBank_congr :
    ∀ (cs1 cs2 : List Elem) (s : Bool),
      cs1.map Elem.tag = cs2.map Elem.tag → refAfterBank s cs1 = refAfterBank s cs2 := by
  intro cs1
  induction cs1 with
  | nil =>
    intro cs2 s h
    rcases cs2 with _ | ⟨hd, tl⟩
    · rfl
    · simp at h
  | cons hd1 tl1 ih =>
    intro cs2 s h
    rcases cs2 with _ | ⟨hd2, tl2⟩
    · simp at h
    · simp only [List.map_cons, List.cons.injEq] at h
      simp only [refAfterBank, isRef, h.1, ih tl2 _ h.2]

theorem refAfterBank_append :
    ∀ (xs ys : List Elem) (s : Bool),
      refAfterBank s (xs ++ ys)
        = (refAfterBank s xs
            || refAfterBank (s || xs.any (fun c => c.tag == "PatchBank")) ys) := by
  intro xs
  induction xs with
  | nil => intro ys s; simp [refAfterBank]
  | cons hd tl ih =>
    intro ys s
    simp only [List.cons_append, refAfterBank, ih, List.any_cons]
    by_cases h : (s && isRef hd) = true
    · simp [h]
    · have h' : (s && isRef hd) = false := by simpa using h
      simp only [h', Bool.false_or]
      have : (s || (hd.tag == "PatchBank" || tl.any (fun c => c.tag == "PatchBank")))
          = ((s || hd.tag == "PatchBank") || tl.any (fun c => c.tag == "PatchBank")) := by
        cases s <;> cases h2 : (hd.tag == "PatchBank") <;> simp
      rw [this]
      exact ih ys _

theorem refAfterBank_of_no_ref :
    ∀ (xs : List Elem) (s : Bool), (∀ c ∈ xs, isRef c = false) → refAfterBank s xs = false := by
  intro xs
  induction xs with
  | nil => intro _ _; rfl
  | cons hd tl ih =>
    intro s h
    simp only [refAfterBank, h hd (by simp), Bool.and_false, Bool.false_or]
    exact ih _ (fun c hc => h c (by simp [hc]))

theorem refAfterBank_false_of_no_bank :
    ∀ xs : List Elem, (∀ c ∈ xs, (c.tag == "PatchBank") = false) →
      refAfterBank false xs = false := by
  intro xs
  induction xs with
  | nil => intro _; rfl
  | cons hd tl ih =>
    intro h
    simp only [refAfterBank, Bool.false_and, Bool.false_or, h hd (by simp), Bool.or_false]
    exact ih (fun c hc => h c (by simp [hc]))

theorem isRef_not_bank : ∀ x : Elem, isRef x = true → (x.tag == "PatchBank") = false := by
  intro x h
  simp only [isRef, isRefTag, noteRefTag, ctrlRefTag, Bool.or_eq_true, beq_iff_eq] at h
  rcases h with (h | h) | (h | h) <;> simp [h]

theorem afc_not_ref_bank :
    ∀ x : Elem, (x.tag == "AvailableForChannels") = true →
      isRef x = false ∧ (x.tag == "PatchBank") = false := by
  intro x h
  have h' := eq_of_beq h
  constructor
  · simp [isRef, isRefTag, noteRefTag, ctrlRefTag, h']
  · simp [h']

theorem bank_not_ref : ∀ x : Elem, (x.tag == "PatchBank") = true → isRef x = false := by
  intro x h
  have h' := eq_of_beq h
  simp [isRef, isRefTag, noteRefTag, ctrlRefTag, h']

/-- The reordered child list of a `ChannelNameSet` never triggers the
reorder test again: every reference ends up before every bank. -/
theorem needsReorder_reorder_result :
    ∀ kept : List Elem, needsReorder (reorderCNSChildren kept).1 = false := by
  intro kept
  simp only [reorderCNSChildren]
  by_cases hr : needsReorder kept = true
  · rw [if_pos hr]
    simp only [needsReorder]
    have hafc : ∀ c ∈ kept.filter (fun c => c.tag == "AvailableForChannels"),
        isRef c = false ∧ (c.tag == "PatchBank") = false :=
      fun c hc => afc_not_ref_bank c (List.mem_filter.mp hc).2
    have hnote : ∀ c ∈ (kept.filter isRef).filter isNoteRef, (c.tag == "PatchBank") = false :=
      fun c hc => isRef_not_bank c (List.mem_filter.mp (List.mem_of_mem_filter hc)).2
    have hctrl : ∀ c ∈ (kept.filter isRef).filter isCtrlRef, (c.tag == "PatchBank") = false :=
      fun c hc => isRef_not_bank c (List.mem_filter.mp (List.mem_of_mem_filter hc)).2
    have hbank : ∀ c ∈ kept.filter (fun c => c.tag == "PatchBank"), isRef c = false :=
      fun c hc => bank_not_ref c (List.mem_filter.mp hc).2
    have hother : ∀ c ∈ kept.filter
        (fun c => !(c.tag == "AvailableForChannels") && !(isRef c) && !(c.tag == "PatchBank")),
        isRef c = false := by
      intro c hc
      have := (List.mem_filter.mp hc).2
      simp only [Bool.and_eq_true, Bool.not_eq_true'] at this
      exact this.1.2
    simp only [List.append_assoc]
    rw [refAfterBank_append]
    rw [refAfterBank_of_no_ref _ _ (fun c hc => (hafc c hc).1)]
    have hafcb : (kept.filter (fun c => c.tag == "AvailableForChannels")).any
        (fun c => c.tag == "PatchBank") = false := by
      rw [List.any_eq_false]
      intro c hc
      simp [(hafc c hc).2]
    simp only [hafcb, Bool.false_or, Bool.or_false]
    rw [refAfterBank_append]
    rw [refAfterBank_false_of_no_bank _
      (fun c hc => hnote c (List.mem_of_mem_take hc))]
    have htakeb : (((kept.filter isRef).filter isNoteRef).take 1).any
        (fun c => c.tag == "PatchBank") = false := by
      rw [List.any_eq_false]
      intro c hc
      simp [hnote c (List.mem_of_mem_take hc)]
    simp only [htakeb, Bool.false_or, Bool.or_false]
    rw [refAfterBank_append]
    rw [refAfterBank_false_of_no_bank _ (fun c hc => hctrl c hc)]
    have hctrlb : ((kept.filter isRef).filter isCtrlRef).any
        (fun c => c.tag == "PatchBank") = false := by
      rw [List.any_eq_false]
      intro c hc
      simp [hctrl c hc]
    simp only [hctrlb, Bool.false_or, Bool.or_false]
    rw [refAfterBank_append]
    rw [refAfterBank_of_no_ref _ _ hbank]
    simp only [Bool.false_or]
    exact refAfterBank_of_no_ref _ _ hother
  · rw [if_neg hr]
    simpa using hr

theorem cleanTL_of_mem :
    ∀ cs : List Elem, (∀ x ∈ cs, cleanT x = true) → cleanTL cs = true := by
  intro cs h
  induction cs with
  | nil => rfl
  | cons hd tl ih =>
    simp only [cleanTL, Bool.and_eq_true]
    exact ⟨h hd (by simp), ih (fun x hx => h x (by simp [hx]))⟩

/-- The channel-name-set child processing yields only clean pieces. -/
theorem dtdFixCNSKids_clean :
    ∀ cs : List Elem,
      (∀ c ∈ cs, cleanT ((dtdFixE true c).tree) = true
        ∧ (∀ m ∈ (dtdFixE true c).moved, cleanT m = true)) →
      (∀ x ∈ (dtdFixCNSKids cs).kept,
          (x.tag == "NoteNameList") = false ∧ cleanT x = true)
        ∧ (∀ x ∈ (dtdFixCNSKids cs).directNL, cleanT x = true)
        ∧ (∀ x ∈ (dtdFixCNSKids cs).deepMoved, cleanT x = true) := by
  intro cs
  induction cs with
  | nil =>
    intro _
    refine ⟨?_, ?_, ?_⟩ <;> intro x hx <;> simp [dtdFixCNSKids] at hx
  | cons hd tl ih =>
    intro h
    obtain ⟨ihk, ihd, ihm⟩ := ih (fun c hc => h c (by simp [hc]))
    obtain ⟨hhd1, hhd2⟩ := h hd (by simp)
    by_cases ht : (hd.tag == "NoteNameList") = true
    · have hsimp : dtdFixCNSKids (hd :: tl) =
          ⟨(dtdFixCNSKids tl).kept,
           (dtdFixE true hd).tree :: (dtdFixCNSKids tl).directNL,
           (dtdFixE true hd).moved ++ (dtdFixCNSKids tl).deepMoved,
           (dtdFixE true hd).dropped ++ (dtdFixCNSKids tl).dropped,
           (dtdFixE true hd).fixes + (dtdFixCNSKids tl).fixes⟩ := by
        simp only [dtdFixCNSKids, ht, if_true]
      rw [hsimp]
      refine ⟨ihk, ?_, ?_⟩
      · intro x hx
        rcases List.mem_cons.mp hx with rfl | hx'
        · exact hhd1
        · exact ihd x hx'
      · intro x hx
        rcases List.mem_append.mp hx with hx' | hx'
        · exact hhd2 x hx'
        · exact ihm x hx'
    · have ht' : (hd.tag == "NoteNameList") = false := by simpa using ht
      have hsimp : dtdFixCNSKids (hd :: tl) =
          ⟨(dtdFixE true hd).tree :: (dtdFixCNSKids tl).kept,
           (dtdFixCNSKids tl).directNL,
           (dtdFixE true hd).moved ++ (dtdFixCNSKids tl).deepMoved,
           (dtdFixE true hd).dropped ++ (dtdFixCNSKids tl).dropped,
           (dtdFixE true hd).fixes + (dtdFixCNSKids tl).fixes⟩ := by
        simp only [dtdFixCNSKids, ht', Bool.false_eq_true, if_false]
      rw [hsimp]
      refine ⟨?_, ihd, ?_⟩
      · intro x hx
        rcases List.mem_cons.mp hx with rfl | hx'
        · exact ⟨by rw [(dtdFixE_tag_attrs true hd).1]; exact ht', hhd1⟩
        · exact ihk x hx'
      · intro x hx
        rcases List.mem_append.mp hx with hx' | hx'
        · exact hhd2 x hx'
        · exact ihm x hx'

/-- Inside a device record, the rewritten subtree and every moved note list
are in normal form. -/
theorem dtdFixE_true_clean :
    ∀ e : Elem, cleanT ((dtdFixE true e).tree) = true
      ∧ (∀ m ∈ (dtdFixE true e).moved, cleanT m = true) := by
  refine elem_ind ?_
  intro t a cs ih
  by_cases ht : (t == "ChannelNameSet") = true
  · have hsimp : dtdFixE true (.mk t a cs) =
        { tree := .mk t a (reorderCNSChildren (dtdFixCNSKids cs).kept).1,
          moved := (dtdFixCNSKids cs).directNL ++ (dtdFixCNSKids cs).deepMoved,
          dropped := (reorderCNSChildren (dtdFixCNSKids cs).kept).2.1
            ++ (dtdFixCNSKids cs).dropped,
          fixes := (if (dtdFixCNSKids cs).directNL.isEmpty then 0 else 1)
            + (reorderCNSChildren (dtdFixCNSKids cs).kept).2.2 + (dtdFixCNSKids cs).fixes } := by
      simp only [dtdFixE, Bool.not_true, Bool.false_and, Bool.false_eq_true, if_false,
        Bool.true_and, ht, if_true]
    obtain ⟨hk, hd, hm⟩ := dtdFixCNSKids_clean cs ih
    rw [hsimp]
    constructor
    · simp only [cleanT, ht, if_true, Bool.and_eq_true]
      refine ⟨⟨?_, ?_⟩, ?_⟩
      · rw [List.all_eq_true]
        intro x hx
        simpa using (hk x (reorderCNSChildren_mem _ x hx)).1
      · simp only [Bool.not_eq_true', needsReorder_reorder_result]
      · exact cleanTL_of_mem _
          (fun x hx => (hk x (reorderCNSChildren_mem _ x hx)).2)
    · intro m hmem
      rcases List.mem_append.mp hmem with h | h
      · exact hd m h
      · exact hm m h
  · have ht' : (t == "ChannelNameSet") = false := by simpa using ht
    have hsimp : dtdFixE true (.mk t a cs) =
        { tree := .mk t a ((dtdFixL true cs).map (·.tree)),
          moved := (dtdFixL true cs).flatMap (·.moved),
          dropped := (dtdFixL true cs).flatMap (·.dropped),
          fixes := ((dtdFixL true cs).map (·.fixes)).sum } := by
      simp only [dtdFixE, Bool.not_true, Bool.false_and, Bool.false_eq_true, if_false,
        Bool.true_and, ht', if_false]
    rw [hsimp]
    constructor
    · simp only [cleanT, ht', Bool.false_eq_true, if_false, Bool.true_and]
      refine cleanTL_of_mem _ ?_
      intro x hx
      rw [dtdFixL_eq_map, List.map_map] at hx
      obtain ⟨c, hc, rfl⟩ := List.mem_map.mp hx
      exact (ih c hc).1
    · intro m hmem
      rw [dtdFixL_eq_map] at hmem
      simp only [List.flatMap_map] at hmem
      obtain ⟨c, hc, hmc⟩ := List.mem_flatMap.mp hmem
      exact (ih c hc).2 m hmc

theorem cleanFL_of_mem :
    ∀ cs : List Elem, (∀ x ∈ cs, cleanF x = true) → cleanFL cs = true := by
  intro cs h
  induction cs with
  | nil => rfl
  | cons hd tl ih =>
    simp only [cleanFL, Bool.and_eq_true]
    exact ⟨h hd (by simp), ih (fun x hx => h x (by simp [hx]))⟩

/-- Outside device records, normalization leaves the tree in normal form. -/
theorem dtdFixE_false_clean :
    ∀ e : Elem, cleanF ((dtdFixE false e).tree) = true := by
  refine elem_ind ?_
  intro t a cs ih
  by_cases ht : (t == "MasterDeviceNames") = true
  · have hsimp : dtdFixE false (.mk t a cs) =
        { tree := .mk t a ((dtdFixL true cs).map (·.tree) ++ (dtdFixL true cs).flatMap (·.moved)),
          moved := [],
          dropped := (dtdFixL true cs).flatMap (·.dropped),
          fixes := ((dtdFixL true cs).map (·.fixes)).sum } := by
      simp only [dtdFixE, Bool.not_false, Bool.true_and, ht, if_true]
    rw [hsimp]
    simp only [cleanF, ht, if_true]
    refine cleanTL_of_mem _ ?_
    intro x hx
    rcases List.mem_append.mp hx with h | h
    · rw [dtdFixL_eq_map, List.map_map] at h
      obtain ⟨c, _, rfl⟩ := List.mem_map.mp h
      exact (dtdFixE_true_clean c).1
    · rw [dtdFixL_eq_map] at h
      simp only [List.flatMap_map] at h
      obtain ⟨c, _, hmc⟩ := List.mem_flatMap.mp h
      exact (dtdFixE_true_clean c).2 x hmc
  · have ht' : (t == "MasterDeviceNames") = false := by simpa using ht
    have hsimp : dtdFixE false (.mk t a cs) =
        { tree := .mk t a ((dtdFixL false cs).map (·.tree)),
          moved := (dtdFixL false cs).flatMap (·.moved),
          dropped := (dtdFixL false cs).flatMap (·.dropped),
          fixes := ((dtdFixL false cs).map (·.fixes)).sum } := by
      simp only [dtdFixE, Bool.not_false, Bool.true_and, Bool.false_and, ht',
        Bool.false_eq_true, if_false]
    rw [hsimp]
    simp only [cleanF, ht', Bool.false_eq_true, if_false]
    refine cleanFL_of_mem _ ?_
    intro x hx
    rw [dtdFixL_eq_map, List.map_map] at hx
    obtain ⟨c, hc, rfl⟩ := List.mem_map.mp hx
    exact ih c hc

theorem cleanTL_to_mem :
    ∀ cs : List Elem, cleanTL cs = true → ∀ x ∈ cs, cleanT x = true := by
  intro cs
  induction cs with
  | nil => intro _ x hx; simp at hx
  | cons hd tl ih =>
    intro h x hx
    simp only [cleanTL, Bool.and_eq_true] at h
    rcases List.mem_cons.mp hx with rfl | hx'
    · exact h.1
    · exact ih h.2 x hx'

theorem cleanFL_to_mem :
    ∀ cs : List Elem, cleanFL cs = true → ∀ x ∈ cs, cleanF x = true := by
  intro cs
  induction cs with
  | nil => intro _ x hx; simp at hx
  | cons hd tl ih =>
    intro h x hx
    simp only [cleanFL, Bool.and_eq_true] at h
    rcases List.mem_cons.mp hx with rfl | hx'
    · exact h.1
    · exact ih h.2 x hx'

theorem dtdFixL_of_id (b : Bool) :
    ∀ cs : List Elem, (∀ c ∈ cs, dtdFixE b c = ⟨c, [], [], 0⟩) →
      dtdFixL b cs = cs.map (fun c => (⟨c, [], [], 0⟩ : FixOut)) := by
  intro cs
  induction cs with
  | nil => intro _; rfl
  | cons hd tl ih =>
    intro h
    simp only [dtdFixL, h hd (by simp), ih (fun c hc => h c (by simp [hc])), List.map_cons]

theorem dtdFixCNSKids_of_clean :
    ∀ cs : List Elem,
      (∀ c ∈ cs, dtdFixE true c = ⟨c, [], [], 0⟩) →
      (∀ c ∈ cs, (c.tag == "NoteNameList") = false) →
      dtdFixCNSKids cs = ⟨cs, [], [], [], 0⟩ := by
  intro cs
  induction cs with
  | nil => intro _ _; rfl
  | cons hd tl ih =>
    intro hid hnl
    have ht := hnl hd (by simp)
    simp only [dtdFixCNSKids, ht, Bool.false_eq_true, if_false,
      hid hd (by simp), ih (fun c hc => hid c (by simp [hc])) (fun c hc => hnl c (by simp [hc]))]
    rfl

theorem map_tree_id (cs : List Elem) :
    ((cs.map (fun c => (⟨c, [], [], 0⟩ : FixOut))).map (·.tree)) = cs := by
  induction cs with
  | nil => rfl
  | cons hd tl ih => simp only [List.map_cons, ih]

theorem flatMap_moved_id (cs : List Elem) :
    ((cs.map (fun c => (⟨c, [], [], 0⟩ : FixOut))).flatMap (·.moved)) = [] := by
  induction cs with
  | nil => rfl
  | cons hd tl ih => simp only [List.map_cons, List.flatMap_cons, ih, List.nil_append]

theorem flatMap_dropped_id (cs : List Elem) :
    ((cs.map (fun c => (⟨c, [], [], 0⟩ : FixOut))).flatMap (·.dropped)) = [] := by
  induction cs with
  | nil => rfl
  | cons hd tl ih => simp only [List.map_cons, List.flatMap_cons, ih, List.nil_append]

theorem sum_fixes_id (cs : List Elem) :
    (((cs.map (fun c => (⟨c, [], [], 0⟩ : FixOut))).map (·.fixes)).sum) = 0 := by
  induction cs with
  | nil => rfl
  | cons hd tl ih => simp only [List.map_cons, List.sum_cons, ih]

/-- On a subtree already in normal form, normalization inside a device
record is the identity with no moved nodes, no drops and fix count 0. -/
theorem dtdFixE_of_cleanT :
    ∀ e : Elem, cleanT e = true → dtdFixE true e = ⟨e, [], [], 0⟩ := by
  refine elem_ind ?_
  intro t a cs ih h
  simp only [cleanT, Bool.and_eq_true] at h
  have hmem := cleanTL_to_mem cs h.2
  have hid : ∀ c ∈ cs, dtdFixE true c = ⟨c, [], [], 0⟩ :=
    fun c hc => ih c hc (hmem c hc)
  by_cases ht : (t == "ChannelNameSet") = true
  · have h1 := h.1
    rw [if_pos ht] at h1
    simp only [Bool.and_eq_true, List.all_eq_true, Bool.not_eq_true'] at h1
    have hkids := dtdFixCNSKids_of_clean cs hid (fun c hc => h1.1 c hc)
    have hsimp : dtdFixE true (.mk t a cs) =
        { tree := .mk t a (reorderCNSChildren (dtdFixCNSKids cs).kept).1,
          moved := (dtdFixCNSKids cs).directNL ++ (dtdFixCNSKids cs).deepMoved,
          dropped := (reorderCNSChildren (dtdFixCNSKids cs).kept).2.1
            ++ (dtdFixCNSKids cs).dropped,
          fixes := (if (dtdFixCNSKids cs).directNL.isEmpty then 0 else 1)
            + (reorderCNSChildren (dtdFixCNSKids cs).kept).2.2 + (dtdFixCNSKids cs).fixes } := by
      simp only [dtdFixE, Bool.not_true, Bool.false_and, Bool.false_eq_true, if_false,
        Bool.true_and, ht, if_true]
    rw [hsimp, hkids]
    simp only [reorderCNSChildren, h1.2, Bool.false_eq_true, if_false]
    rfl
  · have ht' : (t == "ChannelNameSet") = false := by simpa using ht
    have hsimp : dtdFixE true (.mk t a cs) =
        { tree := .mk t a ((dtdFixL true cs).map (·.tree)),
          moved := (dtdFixL true cs).flatMap (·.moved),
          dropped := (dtdFixL true cs).flatMap (·.dropped),
          fixes := ((dtdFixL true cs).map (·.fixes)).sum } := by
      simp only [dtdFixE, Bool.not_true, Bool.false_and, Bool.false_eq_true, if_false,
        Bool.true_and, ht', if_false]
    rw [hsimp, dtdFixL_of_id true cs hid, map_tree_id, flatMap_moved_id,
      flatMap_dropped_id, sum_fixes_id]

/-- On a document already in normal form, normalization is the identity with
fix count 0. -/
theorem dtdFixE_of_cleanF :
    ∀ e : Elem, cleanF e = true → dtdFixE false e = ⟨e, [], [], 0⟩ := by
  refine elem_ind ?_
  intro t a cs ih h
  by_cases ht : (t == "MasterDeviceNames") = true
  · simp only [cleanF, ht, if_true] at h
    have hid : ∀ c ∈ cs, dtdFixE true c = ⟨c, [], [], 0⟩ :=
      fun c hc => dtdFixE_of_cleanT c (cleanTL_to_mem cs h c hc)
    have hsimp : dtdFixE false (.mk t a cs) =
        { tree := .mk t a ((dtdFixL true cs).map (·.tree) ++ (dtdFixL true cs).flatMap (·.moved)),
          moved := [],
          dropped := (dtdFixL true cs).flatMap (·.dropped),
          fixes := ((dtdFixL true cs).map (·.fixes)).sum } := by
      simp only [dtdFixE, Bool.not_false, Bool.true_and, ht, if_true]
    rw [hsimp, dtdFixL_of_id true cs hid, map_tree_id, flatMap_moved_id,
      flatMap_dropped_id, sum_fixes_id, List.append_nil]
  · have ht' : (t == "MasterDeviceNames") = false := by simpa using ht
    simp only [cleanF, ht', Bool.false_eq_true, if_false] at h
    have hid : ∀ c ∈ cs, dtdFixE false c = ⟨c, [], [], 0⟩ :=
      fun c hc => ih c hc (cleanFL_to_mem cs h c hc)
    have hsimp : dtdFixE false (.mk t a cs) =
        { tree := .mk t a ((dtdFixL false cs).map (·.tree)),
          moved := (dtdFixL false cs).flatMap (·.moved),
          dropped := (dtdFixL false cs).flatMap (·.dropped),
          fixes := ((dtdFixL false cs).map (·.fixes)).sum } := by
      simp only [dtdFixE, Bool.not_false, Bool.true_and, Bool.false_and, ht',
        Bool.false_eq_true, if_false]
    rw [hsimp, dtdFixL_of_id false cs hid, map_tree_id, flatMap_moved_id,
      flatMap_dropped_id, sum_fixes_id]

/-- **C3.**  Normalization is idempotent: a second run of
`_ensure_dtd_compliance` right after a first one applies zero fixes and
leaves the tree — hence its serialization — byte-identical. -/
theorem C3_normalize_idempotent :
    ∀ (d : Elem) (doctypeLine : String),
      ensureDtdCompliance (ensureDtdCompliance d).1 = ((ensureDtdCompliance d).1, 0)
        ∧ serializeDocument doctypeLine (ensureDtdCompliance (ensureDtdCompliance d).1).1
            = serializeDocument doctypeLine (ensureDtdCompliance d).1 := by
  intro d doctypeLine
  have hmain : ensureDtdCompliance (ensureDtdCompliance d).1 = ((ensureDtdCompliance d).1, 0) := by
    cases d with
    | mk t a cs =>
      simp only [ensureDtdCompliance]
      have hclean : ∀ x ∈ (dtdFixL false cs).map (·.tree), cleanF x = true := by
        intro x hx
        rw [dtdFixL_eq_map, List.map_map] at hx
        obtain ⟨c, _, rfl⟩ := List.mem_map.mp hx
        exact dtdFixE_false_clean c
      have hid : ∀ c ∈ (dtdFixL false cs).map (·.tree), dtdFixE false c = ⟨c, [], [], 0⟩ :=
        fun c hc => dtdFixE_of_cleanF c (hclean c hc)
      rw [dtdFixL_of_id false _ hid, map_tree_id, sum_fixes_id]
  exact ⟨hmain, by rw [hmain]⟩

theorem dtdFixCNSKids_kept_tags :
    ∀ cs : List Elem,
      (dtdFixCNSKids cs).kept.map Elem.tag
        = (cs.filter (fun c => !(c.tag == "NoteNameList"))).map Elem.tag := by
  intro cs
  induction cs with
  | nil => rfl
  | cons hd tl ih =>
    by_cases ht : (hd.tag == "NoteNameList") = true
    · simp only [dtdFixCNSKids, ht, if_true, List.filter_cons, Bool.not_true,
        Bool.false_eq_true, if_false]
      exact ih
    · have ht' : (hd.tag == "NoteNameList") = false := by simpa using ht
      simp only [dtdFixCNSKids, ht', Bool.false_eq_true, if_false, List.filter_cons,
        Bool.not_false, if_true, List.map_cons]
      rw [(dtdFixE_tag_attrs true hd).1, ih]

theorem dtdFixCNSKids_directNL_empty :
    ∀ cs : List Elem,
      (dtdFixCNSKids cs).directNL.isEmpty
        = !(cs.any (fun c => c.tag == "NoteNameList")) := by
  intro cs
  induction cs with
  | nil => rfl
  | cons hd tl ih =>
    by_cases ht : (hd.tag == "NoteNameList") = true
    · simp only [dtdFixCNSKids, ht, if_true, List.any_cons, Bool.true_or, Bool.not_true]
      rfl
    · have ht' : (hd.tag == "NoteNameList") = false := by simpa using ht
      simp only [dtdFixCNSKids, ht', Bool.false_eq_true, if_false, List.any_cons,
        Bool.false_or]
      exact ih

theorem dtdFixCNSKids_fixes :
    ∀ cs : List Elem,
      (dtdFixCNSKids cs).fixes = ((dtdFixL true cs).map (·.fixes)).sum := by
  intro cs
  induction cs with
  | nil => rfl
  | cons hd tl ih =>
    by_cases ht : (hd.tag == "NoteNameList") = true
    · simp only [dtdFixCNSKids, ht, if_true, dtdFixL, List.map_cons, List.sum_cons, ih]
    · have ht' : (hd.tag == "NoteNameList") = false := by simpa using ht
      simp only [dtdFixCNSKids, ht', Bool.false_eq_true, if_false, dtdFixL, List.map_cons,
        List.sum_cons, ih]

/-- Filtering by a tag-only predicate commutes with having equal tag lists. -/
theorem filter_tags_congr (p : Elem → Bool) (hp : ∀ x y : Elem, x.tag = y.tag → p x = p y) :
    ∀ cs1 cs2 : List Elem, cs1.map Elem.tag = cs2.map Elem.tag →
      (cs1.filter p).map Elem.tag = (cs2.filter p).map Elem.tag := by
  intro cs1
  induction cs1 with
  | nil =>
    intro cs2 h
    rcases cs2 with _ | ⟨hd, tl⟩
    · rfl
    · simp at h
  | cons hd1 tl1 ih =>
    intro cs2 h
    rcases cs2 with _ | ⟨hd2, tl2⟩
    · simp at h
    · simp only [List.map_cons, List.cons.injEq] at h
      have hpeq : p hd1 = p hd2 := hp hd1 hd2 h.1
      simp only [List.filter_cons]
      by_cases hph : p hd1 = true
      · rw [hph] at hpeq
        simp only [hph, ← hpeq, if_true, List.map_cons]
        rw [h.1, ih tl2 h.2]
      · have hph' : p hd1 = false := by simpa using hph
        rw [hph'] at hpeq
        simp only [hph', ← hpeq, Bool.false_eq_true, if_false]
        exact ih tl2 h.2

theorem isRef_tag_only : ∀ x y : Elem, x.tag = y.tag → isRef x = isRef y := by
  intro x y h
  simp [isRef, h]

theorem isNoteRef_tag_only : ∀ x y : Elem, x.tag = y.tag → isNoteRef x = isNoteRef y := by
  intro x y h
  simp [isNoteRef, h]

/-- The per-`fixes_applied` count of the normalizer equals the
specification-side count read off the input. -/
theorem dtdFixE_fixes_spec :
    ∀ e : Elem, ∀ b : Bool, (dtdFixE b e).fixes = specFixCountE b e := by
  refine elem_ind ?_
  intro t a cs ih b
  have hlist : ∀ b' : Bool, (∀ c ∈ cs, (dtdFixE b' c).fixes = specFixCountE b' c) →
      ((dtdFixL b' cs).map (·.fixes)).sum = specFixCountL b' cs := by
    intro b' hmem
    clear ih
    induction cs with
    | nil => rfl
    | cons hd tl ihl =>
      simp only [dtdFixL, List.map_cons, List.sum_cons, specFixCountL,
        hmem hd (by simp), ihl (fun c hc => hmem c (by simp [hc]))]
  cases b with
  | false =>
    by_cases ht : (t == "MasterDeviceNames") = true
    · have hsimp : dtdFixE false (.mk t a cs) =
          { tree := .mk t a ((dtdFixL true cs).map (·.tree)
              ++ (dtdFixL true cs).flatMap (·.moved)),
            moved := [],
            dropped := (dtdFixL true cs).flatMap (·.dropped),
            fixes := ((dtdFixL true cs).map (·.fixes)).sum } := by
        simp only [dtdFixE, Bool.not_false, Bool.true_and, ht, if_true]
      rw [hsimp]
      simp only [specFixCountE, Bool.false_and, Bool.false_eq_true, if_false, ht,
        Bool.false_or, Nat.zero_add]
      exact hlist true (fun c hc => ih c hc true)
    · have ht' : (t == "MasterDeviceNames") = false := by simpa using ht
      have hsimp : dtdFixE false (.mk t a cs) =
          { tree := .mk t a ((dtdFixL false cs).map (·.tree)),
            moved := (dtdFixL false cs).flatMap (·.moved),
            dropped := (dtdFixL false cs).flatMap (·.dropped),
            fixes := ((dtdFixL false cs).map (·.fixes)).sum } := by
        simp only [dtdFixE, Bool.not_false, Bool.true_and, Bool.false_and, ht',
          Bool.false_eq_true, if_false]
      rw [hsimp]
      simp only [specFixCountE, Bool.false_and, Bool.false_eq_true, if_false, ht',
        Bool.false_or, Nat.zero_add]
      exact hlist false (fun c hc => ih c hc false)
  | true =>
    by_cases ht : (t == "ChannelNameSet") = true
    · have hsimp : dtdFixE true (.mk t a cs) =
          { tree := .mk t a (reorderCNSChildren (dtdFixCNSKids cs).kept).1,
            moved := (dtdFixCNSKids cs).directNL ++ (dtdFixCNSKids cs).deepMoved,
            dropped := (reorderCNSChildren (dtdFixCNSKids cs).kept).2.1
              ++ (dtdFixCNSKids cs).dropped,
            fixes := (if (dtdFixCNSKids cs).directNL.isEmpty then 0 else 1)
              + (reorderCNSChildren (dtdFixCNSKids cs).kept).2.2
              + (dtdFixCNSKids cs).fixes } := by
        simp only [dtdFixE, Bool.not_true, Bool.false_and, Bool.false_eq_true, if_false,
          Bool.true_and, ht, if_true]
      rw [hsimp]
      simp only [specFixCountE, Bool.true_and, ht, if_true, Bool.true_or]
      have htags := dtdFixCNSKids_kept_tags cs
      have hnr : needsReorder (dtdFixCNSKids cs).kept
          = needsReorder (cs.filter (fun c => !(c.tag == "NoteNameList"))) :=
        refAfterBank_congr _ _ false htags
      have hlen : (((dtdFixCNSKids cs).kept.filter isRef).filter isNoteRef).length
          = (((cs.filter (fun c => !(c.tag == "NoteNameList"))).filter isRef).filter
              isNoteRef).length := by
        have h1 := filter_tags_congr isRef isRef_tag_only _ _ htags
        have h2 := filter_tags_congr isNoteRef isNoteRef_tag_only _ _ h1
        have := congrArg List.length h2
        simpa using this
      have hreo : (reorderCNSChildren (dtdFixCNSKids cs).kept).2.2
          = (if needsReorder (cs.filter (fun c => !(c.tag == "NoteNameList"))) then
              1 + (if 1 < (((cs.filter (fun c => !(c.tag == "NoteNameList"))).filter
                    isRef).filter isNoteRef).length then 1 else 0)
            else 0) := by
        simp only [reorderCNSChildren]
        by_cases hr : needsReorder (dtdFixCNSKids cs).kept = true
        · rw [if_pos hr, ← hnr, if_pos hr]
          show 1 + (if 1 < (((dtdFixCNSKids cs).kept.filter isRef).filter
              isNoteRef).length then 1 else 0) = _
          rw [hlen]
        · rw [if_neg hr, ← hnr, if_neg hr]
      rw [hreo, dtdFixCNSKids_directNL_empty, dtdFixCNSKids_fixes,
        hlist true (fun c hc => ih c hc true)]
      simp only [cnsFixCount]
      by_cases hany : (cs.any (fun c => c.tag == "NoteNameList")) = true
      · rw [hany]
        simp only [Bool.not_true, Bool.false_eq_true, if_false, if_true]
      · have hany' : (cs.any (fun c => c.tag == "NoteNameList")) = false := by simpa using hany
        rw [hany']
        simp only [Bool.not_false, if_true, Bool.false_eq_true, if_false]
    · have ht' : (t == "ChannelNameSet") = false := by simpa using ht
      have hsimp : dtdFixE true (.mk t a cs) =
          { tree := .mk t a ((dtdFixL true cs).map (·.tree)),
            moved := (dtdFixL true cs).flatMap (·.moved),
            dropped := (dtdFixL true cs).flatMap (·.dropped),
            fixes := ((dtdFixL true cs).map (·.fixes)).sum } := by
        simp only [dtdFixE, Bool.not_true, Bool.false_and, Bool.false_eq_true, if_false,
          Bool.true_and, ht', if_false]
      rw [hsimp]
      simp only [specFixCountE, Bool.true_and, ht', Bool.false_eq_true, if_false,
        Bool.true_or, Nat.zero_add]
      exact hlist true (fun c hc => ih c hc true)

/-- **C6 (amended).**  Fix-count accounting: the value `normalize` returns is
`len(fixes_applied)` — one entry per `ChannelNameSet` that had at least one
direct `NoteNameList` moved out (however many nodes moved), plus one per
reordered set, plus one more WARNING entry per reordered set holding more
than one note reference.  `specFixCount` reads exactly that off the input
document; the claimed "one per moved `NoteNameList`" is refuted by
`C6_counterexample`. -/
theorem C6_fix_count_accounting :
    ∀ d : Elem, (ensureDtdCompliance d).2 = specFixCount d := by
  intro d
  cases d with
  | mk t a cs =>
    simp only [ensureDtdCompliance, specFixCount]
    clear t a
    induction cs with
    | nil => rfl
    | cons hd tl ihl =>
      simp only [dtdFixL, List.map_cons, List.sum_cons, specFixCountL, ihl,
        dtdFixE_fixes_spec hd false]

theorem countLabelL_append (lbl : String × List (String × String)) :
    ∀ xs ys : List Elem,
      countLabelL lbl (xs ++ ys) = countLabelL lbl xs + countLabelL lbl ys := by
  intro xs ys
  induction xs with
  | nil => simp [countLabelL]
  | cons hd tl ih =>
    simp only [List.cons_append, countLabelL, List.append_eq]
    rw [ih]
    omega

/-- Three mutually exclusive filters and their complement partition a list's
label count. -/
theorem countLabelL_partition3 (lbl : String × List (String × String))
    (p1 p2 p3 : Elem → Bool)
    (h12 : ∀ c : Elem, p1 c = true → p2 c = false)
    (h13 : ∀ c : Elem, p1 c = true → p3 c = false)
    (h23 : ∀ c : Elem, p2 c = true → p3 c = false) :
    ∀ cs : List Elem,
      countLabelL lbl (cs.filter p1) + countLabelL lbl (cs.filter p2)
          + countLabelL lbl (cs.filter p3)
          + countLabelL lbl (cs.filter (fun c => !(p1 c) && !(p2 c) && !(p3 c)))
        = countLabelL lbl cs := by
  intro cs
  induction cs with
  | nil => rfl
  | cons hd tl ih =>
    simp only [List.filter_cons]
    by_cases hp1 : p1 hd = true
    · simp only [hp1, h12 hd hp1, h13 hd hp1, if_true, Bool.not_true, Bool.false_and,
        Bool.false_eq_true, if_false, countLabelL]
      omega
    · have hp1' : p1 hd = false := by simpa using hp1
      by_cases hp2 : p2 hd = true
      · simp only [hp1', hp2, h23 hd hp2, if_true, Bool.not_true, Bool.not_false,
          Bool.true_and, Bool.false_and, Bool.and_false, Bool.false_eq_true, if_false,
          countLabelL]
        omega
      · have hp2' : p2 hd = false := by simpa using hp2
        by_cases hp3 : p3 hd = true
        · simp only [hp1', hp2', hp3, if_true, Bool.not_true, Bool.not_false,
            Bool.true_and, Bool.and_false, Bool.false_eq_true, if_false, countLabelL]
          omega
        · have hp3' : p3 hd = false := by simpa using hp3
          simp only [hp1', hp2', hp3', Bool.not_false, Bool.true_and, Bool.and_self,
            if_true, Bool.false_eq_true, if_false, countLabelL]
          omega

theorem noteRef_not_ctrlRef : ∀ x : Elem, isNoteRef x = true → isCtrlRef x = false := by
  intro x h
  simp only [isNoteRef, noteRefTag, Bool.or_eq_true, beq_iff_eq] at h
  rcases h with h | h <;> simp [isCtrlRef, ctrlRefTag, h]

theorem countLabelL_refs_split (lbl : String × List (String × String)) :
    ∀ cs : List Elem, (∀ c ∈ cs, isRef c = true) →
      countLabelL lbl (cs.filter isNoteRef) + countLabelL lbl (cs.filter isCtrlRef)
        = countLabelL lbl cs := by
  intro cs h
  induction cs with
  | nil => rfl
  | cons hd tl ih =>
    have hr := h hd (by simp)
    have hsplit : (isNoteRef hd = true ∧ isCtrlRef hd = false)
        ∨ (isNoteRef hd = false ∧ isCtrlRef hd = true) := by
      have := hr
      simp only [isRef, isRefTag, Bool.or_eq_true] at this
      rcases this with hn | hc
      · exact Or.inl ⟨hn, noteRef_not_ctrlRef hd hn⟩
      · by_cases hn : isNoteRef hd = true
        · exact Or.inl ⟨hn, noteRef_not_ctrlRef hd hn⟩
        · exact Or.inr ⟨by simpa using hn, hc⟩
    simp only [List.filter_cons]
    rcases hsplit with ⟨hn, hc⟩ | ⟨hn, hc⟩ <;>
      simp only [hn, hc, if_true, Bool.false_eq_true, if_false, countLabelL] <;>
      [skip; skip] <;>
      · have := ih (fun c hcm => h c (by simp [hcm]))
        omega

/-- The reorder step conserves every label count up to its dropped nodes. -/
theorem reorder_conserve (lbl : String × List (String × String)) :
    ∀ kept : List Elem,
      countLabelL lbl kept
        = countLabelL lbl (reorderCNSChildren kept).1
          + countLabelL lbl (reorderCNSChildren kept).2.1 := by
  intro kept
  simp only [reorderCNSChildren]
  by_cases hr : needsReorder kept = true
  · rw [if_pos hr]
    have hpart := countLabelL_partition3 lbl
      (fun c => c.tag == "AvailableForChannels") isRef (fun c => c.tag == "PatchBank")
      (fun c hc => (afc_not_ref_bank c hc).1)
      (fun c hc => (afc_not_ref_bank c hc).2)
      (fun c hc => isRef_not_bank c hc)
      kept
    have hrefs := countLabelL_refs_split lbl (kept.filter isRef)
      (fun c hc => (List.mem_filter.mp hc).2)
    have htd : countLabelL lbl (((kept.filter isRef).filter isNoteRef).take 1)
        + countLabelL lbl (((kept.filter isRef).filter isNoteRef).drop 1)
        = countLabelL lbl ((kept.filter isRef).filter isNoteRef) := by
      rw [← countLabelL_append]
      rw [List.take_append_drop]
    simp only [countLabelL_append]
    omega
  · rw [if_neg hr]
    simp [countLabelL]

theorem dtdFixCNSKids_conserve (lbl : String × List (String × String)) :
    ∀ cs : List Elem,
      (∀ c ∈ cs,
        countLabel lbl c = countLabel lbl (dtdFixE true c).tree
          + countLabelL lbl (dtdFixE true c).moved
          + countLabelL lbl (dtdFixE true c).dropped) →
      countLabelL lbl cs
        = countLabelL lbl (dtdFixCNSKids cs).kept
          + countLabelL lbl (dtdFixCNSKids cs).directNL
          + countLabelL lbl (dtdFixCNSKids cs).deepMoved
          + countLabelL lbl (dtdFixCNSKids cs).dropped := by
  intro cs
  induction cs with
  | nil => intro _; rfl
  | cons hd tl ih =>
    intro h
    have hhd := h hd (by simp)
    have htl := ih (fun c hc => h c (by simp [hc]))
    by_cases ht : (hd.tag == "NoteNameList") = true
    · simp only [dtdFixCNSKids, ht, if_true, countLabelL, countLabelL_append]
      omega
    · have ht' : (hd.tag == "NoteNameList") = false := by simpa using ht
      simp only [dtdFixCNSKids, ht', Bool.false_eq_true, if_false, countLabelL,
        countLabelL_append]
      omega

theorem dtdFixL_conserve (lbl : String × List (String × String)) (b : Bool) :
    ∀ cs : List Elem,
      (∀ c ∈ cs,
        countLabel lbl c = countLabel lbl (dtdFixE b c).tree
          + countLabelL lbl (dtdFixE b c).moved
          + countLabelL lbl (dtdFixE b c).dropped) →
      countLabelL lbl cs
        = countLabelL lbl ((dtdFixL b cs).map (·.tree))
          + countLabelL lbl ((dtdFixL b cs).flatMap (·.moved))
          + countLabelL lbl ((dtdFixL b cs).flatMap (·.dropped)) := by
  intro cs
  induction cs with
  | nil => intro _; rfl
  | cons hd tl ih =>
    intro h
    have hhd := h hd (by simp)
    have htl := ih (fun c hc => h c (by simp [hc]))
    simp only [dtdFixL, List.map_cons, List.flatMap_cons, countLabelL, countLabelL_append]
    omega

/-- Normalization conserves every (tag, attrs) node count, up to the dropped
excess note references (with their subtrees). -/
theorem dtdFixE_conserve (lbl : String × List (String × String)) :
    ∀ e : Elem, ∀ b : Bool,
      countLabel lbl e = countLabel lbl (dtdFixE b e).tree
        + countLabelL lbl (dtdFixE b e).moved
        + countLabelL lbl (dtdFixE b e).dropped := by
  refine elem_ind ?_
  intro t a cs ih b
  cases b with
  | false =>
    by_cases ht : (t == "MasterDeviceNames") = true
    · have hsimp : dtdFixE false (.mk t a cs) =
          { tree := .mk t a ((dtdFixL true cs).map (·.tree)
              ++ (dtdFixL true cs).flatMap (·.moved)),
            moved := [],
            dropped := (dtdFixL true cs).flatMap (·.dropped),
            fixes := ((dtdFixL true cs).map (·.fixes)).sum } := by
        simp only [dtdFixE, Bool.not_false, Bool.true_and, ht, if_true]
      rw [hsimp]
      have hl := dtdFixL_conserve lbl true cs (fun c hc => ih c hc true)
      simp only [countLabel, countLabelL_append, countLabelL]
      omega
    · have ht' : (t == "MasterDeviceNames") = false := by simpa using ht
      have hsimp : dtdFixE false (.mk t a cs) =
          { tree := .mk t a ((dtdFixL false cs).map (·.tree)),
            moved := (dtdFixL false cs).flatMap (·.moved),
            dropped := (dtdFixL false cs).flatMap (·.dropped),
            fixes := ((dtdFixL false cs).map (·.fixes)).sum } := by
        simp only [dtdFixE, Bool.not_false, Bool.true_and, Bool.false_and, ht',
          Bool.false_eq_true, if_false]
      rw [hsimp]
      have hl := dtdFixL_conserve lbl false cs (fun c hc => ih c hc false)
      simp only [countLabel]
      omega
  | true =>
    by_cases ht : (t == "ChannelNameSet") = true
    · have hsimp : dtdFixE true (.mk t a cs) =
          { tree := .mk t a (reorderCNSChildren (dtdFixCNSKids cs).kept).1,
            moved := (dtdFixCNSKids cs).directNL ++ (dtdFixCNSKids cs).deepMoved,
            dropped := (reorderCNSChildren (dtdFixCNSKids cs).kept).2.1
              ++ (dtdFixCNSKids cs).dropped,
            fixes := (if (dtdFixCNSKids cs).directNL.isEmpty then 0 else 1)
              + (reorderCNSChildren (dtdFixCNSKids cs).kept).2.2
              + (dtdFixCNSKids cs).fixes } := by
        simp only [dtdFixE, Bool.not_true, Bool.false_and, Bool.false_eq_true, if_false,
          Bool.true_and, ht, if_true]
      rw [hsimp]
      have hk := dtdFixCNSKids_conserve lbl cs (fun c hc => ih c hc true)
      have hre := reorder_conserve lbl (dtdFixCNSKids cs).kept
      simp only [countLabel, countLabelL_append]
      omega
    · have ht' : (t == "ChannelNameSet") = false := by simpa using ht
      have hsimp : dtdFixE true (.mk t a cs) =
          { tree := .mk t a ((dtdFixL true cs).map (·.tree)),
            moved := (dtdFixL true cs).flatMap (·.moved),
            dropped := (dtdFixL true cs).flatMap (·.dropped),
            fixes := ((dtdFixL true cs).map (·.fixes)).sum } := by
        simp only [dtdFixE, Bool.not_true, Bool.false_and, Bool.false_eq_true, if_false,
          Bool.true_and, ht', if_false]
      rw [hsimp]
      have hl := dtdFixL_conserve lbl true cs (fun c hc => ih c hc true)
      simp only [countLabel]
      omega

theorem dtdFixCNSKids_dropped_mem :
    ∀ (cs : List Elem) (x : Elem), x ∈ (dtdFixCNSKids cs).dropped →
      ∃ c ∈ cs, x ∈ (dtdFixE true c).dropped := by
  intro cs
  induction cs with
  | nil => intro x hx; simp [dtdFixCNSKids] at hx
  | cons hd tl ih =>
    intro x hx
    by_cases ht : (hd.tag == "NoteNameList") = true
    · simp only [dtdFixCNSKids, ht, if_true] at hx
      rcases List.mem_append.mp hx with h | h
      · exact ⟨hd, by simp, h⟩
      · obtain ⟨c, hc, hxc⟩ := ih x h
        exact ⟨c, by simp [hc], hxc⟩
    · have ht' : (hd.tag == "NoteNameList") = false := by simpa using ht
      simp only [dtdFixCNSKids, ht', Bool.false_eq_true, if_false] at hx
      rcases List.mem_append.mp hx with h | h
      · exact ⟨hd, by simp, h⟩
      · obtain ⟨c, hc, hxc⟩ := ih x h
        exact ⟨c, by simp [hc], hxc⟩

/-- Everything the normalizer drops is a note reference (a `NoteNameList` or
`UsesNoteNameList` node, dropped with its subtree). -/
theorem dtdFixE_dropped_noteRef :
    ∀ e : Elem, ∀ b : Bool, ∀ x ∈ (dtdFixE b e).dropped, isNoteRef x = true := by
  refine elem_ind ?_
  intro t a cs ih b
  intro x hx
  cases b with
  | false =>
    by_cases ht : (t == "MasterDeviceNames") = true
    · have hsimp : (dtdFixE false (.mk t a cs)).dropped
          = (dtdFixL true cs).flatMap (·.dropped) := by
        simp only [dtdFixE, Bool.not_false, Bool.true_and, ht, if_true]
      rw [hsimp, dtdFixL_eq_map] at hx
      simp only [List.flatMap_map] at hx
      obtain ⟨c, hc, hxc⟩ := List.mem_flatMap.mp hx
      exact ih c hc true x hxc
    · have ht' : (t == "MasterDeviceNames") = false := by simpa using ht
      have hsimp : (dtdFixE false (.mk t a cs)).dropped
          = (dtdFixL false cs).flatMap (·.dropped) := by
        simp only [dtdFixE, Bool.not_false, Bool.true_and, Bool.false_and, ht',
          Bool.false_eq_true, if_false]
      rw [hsimp, dtdFixL_eq_map] at hx
      simp only [List.flatMap_map] at hx
      obtain ⟨c, hc, hxc⟩ := List.mem_flatMap.mp hx
      exact ih c hc false x hxc
  | true =>
    by_cases ht : (t == "ChannelNameSet") = true
    · have hsimp : (dtdFixE true (.mk t a cs)).dropped
          = (reorderCNSChildren (dtdFixCNSKids cs).kept).2.1
            ++ (dtdFixCNSKids cs).dropped := by
        simp only [dtdFixE, Bool.not_true, Bool.false_and, Bool.false_eq_true, if_false,
          Bool.true_and, ht, if_true]
      rw [hsimp] at hx
      rcases List.mem_append.mp hx with h | h
      · simp only [reorderCNSChildren] at h
        by_cases hr : needsReorder (dtdFixCNSKids cs).kept = true
        · rw [if_pos hr] at h
          have := List.mem_of_mem_drop h
          exact (List.mem_filter.mp this).2
        · rw [if_neg hr] at h
          simp at h
      · obtain ⟨c, hc, hxc⟩ := dtdFixCNSKids_dropped_mem cs x h
        exact ih c hc true x hxc
    · have ht' : (t == "ChannelNameSet") = false := by simpa using ht
      have hsimp : (dtdFixE true (.mk t a cs)).dropped
          = (dtdFixL true cs).flatMap (·.dropped) := by
        simp only [dtdFixE, Bool.not_true, Bool.false_and, Bool.false_eq_true, if_false,
          Bool.true_and, ht', if_false]
      rw [hsimp, dtdFixL_eq_map] at hx
      simp only [List.flatMap_map] at hx
      obtain ⟨c, hc, hxc⟩ := List.mem_flatMap.mp hx
      exact ih c hc true x hxc

/-- Outside a device record nothing is waiting to be re-attached. -/
theorem dtdFixE_false_moved_nil :
    ∀ e : Elem, (dtdFixE false e).moved = [] := by
  refine elem_ind ?_
  intro t a cs ih
  by_cases ht : (t == "MasterDeviceNames") = true
  · simp only [dtdFixE, Bool.not_false, Bool.true_and, ht, if_true]
  · have ht' : (t == "MasterDeviceNames") = false := by simpa using ht
    have hsimp : (dtdFixE false (.mk t a cs)).moved
        = (dtdFixL false cs).flatMap (·.moved) := by
      simp only [dtdFixE, Bool.not_false, Bool.true_and, Bool.false_and, ht',
        Bool.false_eq_true, if_false]
    rw [hsimp, dtdFixL_eq_map]
    simp only [List.flatMap_map]
    rw [List.flatMap_eq_nil_iff.mpr]
    intro r hr
    exact ih r hr

/-- **C10 (amended).**  Normalization loses nothing except the excess note
references of reordered `ChannelNameSet`s, and those are dropped *together
with their subtrees*: for every (tag, attrs) node label, the count in the
input equals the count in the normalized tree plus the count inside the
dropped note references, and every dropped node is tagged `NoteNameList` or
`UsesNoteNameList` (see `C10_counterexample` for why the subtree
qualification is necessary). -/
theorem C10_normalize_conservation :
    ∀ (d : Elem) (lbl : String × List (String × String)),
      countLabel lbl d
          = countLabel lbl (ensureDtdCompliance d).1 + countLabelL lbl (dtdDropped d)
        ∧ ∀ dr ∈ dtdDropped d, isNoteRef dr = true := by
  intro d lbl
  cases d with
  | mk t a cs =>
    constructor
    · simp only [ensureDtdCompliance, dtdDropped, countLabel]
      have hl := dtdFixL_conserve lbl false cs
        (fun c _ => dtdFixE_conserve lbl c false)
      have hmoved : countLabelL lbl ((dtdFixL false cs).flatMap (·.moved)) = 0 := by
        have : (dtdFixL false cs).flatMap (·.moved) = [] := by
          rw [dtdFixL_eq_map]
          simp only [List.flatMap_map]
          rw [List.flatMap_eq_nil_iff.mpr]
          intro r hr
          exact dtdFixE_false_moved_nil r
        rw [this]
        rfl
      omega
    · intro dr hdr
      simp only [dtdDropped] at hdr
      rw [dtdFixL_eq_map] at hdr
      simp only [List.flatMap_map] at hdr
      obtain ⟨c, _, hxc⟩ := List.mem_flatMap.mp hdr
      exact dtdFixE_dropped_noteRef c false dr hxc

theorem removeStale_skip (front : List String) :
    ∀ (xs rest : List Elem), (∀ c ∈ xs, isCNS c = false) →
      removeStaleCNS front (xs ++ rest) = xs ++ removeStaleCNS front rest := by
  intro xs rest h
  induction xs with
  | nil => rfl
  | cons hd tl ih =>
    have hhd : isCNS hd = false := h hd (by simp)
    simp only [List.cons_append, removeStaleCNS, hhd, Bool.false_and, Bool.false_eq_true,
      if_false, List.append_eq]
    rw [ih (fun c hc => h c (by simp [hc]))]

theorem removeStale_keep (front : List String) :
    ∀ (node : Elem) (rest : List Elem) (n : String),
      isCNS node = true → cnsKey node = some n → front.contains n = true →
      removeStaleCNS front (node :: rest) = node :: removeStaleCNS front rest := by
  intro node rest n h1 h2 h3
  simp only [removeStaleCNS, h1, h2, h3, Bool.true_and, Bool.not_true, Bool.false_and,
    Bool.false_eq_true, if_false]

theorem removeStale_drop (front : List String) :
    ∀ (node : Elem) (rest : List Elem) (n : String),
      isCNS node = true → cnsKey node = some n → front.contains n = false →
      (∀ c ∈ rest, (isCNS c && (cnsKey c == some n)) = false) →
      removeStaleCNS front (node :: rest) = removeStaleCNS front rest := by
  intro node rest n h1 h2 h3 h4
  have hany : (rest.any (fun c' => isCNS c' && cnsKey c' == some n)) = false := by
    rw [List.any_eq_false]
    intro c hc
    simp [h4 c hc]
  simp only [removeStaleCNS, h1, h2, h3, hany, Bool.true_and, Bool.not_false, if_true]

theorem modifyLast_found (n : String) (f : Elem → Elem) :
    ∀ (xs : List Elem) (node : Elem) (rest : List Elem),
      isCNS node = true → cnsKey node = some n →
      (∀ c ∈ rest, (isCNS c && (cnsKey c == some n)) = false) →
      modifyLastCNSNamed n f (xs ++ node :: rest) = xs ++ f node :: rest := by
  intro xs
  induction xs with
  | nil =>
    intro node rest h1 h2 h3
    have hany : (rest.any (fun c' => isCNS c' && cnsKey c' == some n)) = false := by
      rw [List.any_eq_false]
      intro c hc
      simp [h3 c hc]
    simp only [List.nil_append, modifyLastCNSNamed, hany, Bool.false_eq_true, if_false,
      h1, h2, beq_self_eq_true, Bool.true_and, if_true]
  | cons hd tl ih =>
    intro node rest h1 h2 h3
    have hany : ((tl ++ node :: rest).any (fun c' => isCNS c' && cnsKey c' == some n))
        = true := by
      rw [List.any_eq_true]
      exact ⟨node, by simp, by simp [h1, h2]⟩
    simp only [List.cons_append, modifyLastCNSNamed, List.append_eq, hany, if_true]
    rw [ih node rest h1 h2 h3]

theorem replaceFirstAFC_filter (x : Elem) (hx : x.tag = "AvailableForChannels") :
    ∀ xs : List Elem,
      (xs.filter (fun c => c.tag == "AvailableForChannels")).length ≤ 1 →
      xs.any (fun c => c.tag == "AvailableForChannels") = true →
      (replaceFirstAFC x xs).filter (fun c => c.tag == "AvailableForChannels") = [x]
        ∧ (replaceFirstAFC x xs).filter (fun c => !(c.tag == "AvailableForChannels"))
            = xs.filter (fun c => !(c.tag == "AvailableForChannels")) := by
  intro xs
  induction xs with
  | nil => intro _ h; simp at h
  | cons hd tl ih =>
    intro hlen hany
    by_cases ht : (hd.tag == "AvailableForChannels") = true
    · have htlnil : tl.filter (fun c => c.tag == "AvailableForChannels") = [] := by
        simp only [List.filter_cons, ht, if_true, List.length_cons] at hlen
        have : (tl.filter (fun c => c.tag == "AvailableForChannels")).length = 0 := by omega
        exact List.length_eq_zero.mp this
      have hxb : (x.tag == "AvailableForChannels") = true := by rw [hx]; rfl
      simp only [replaceFirstAFC, ht, if_true]
      constructor
      · simp only [List.filter_cons, hxb, if_true, htlnil]
      · simp only [List.filter_cons, hxb, ht, Bool.not_true, Bool.false_eq_true, if_false]
    · have ht' : (hd.tag == "AvailableForChannels") = false := by simpa using ht
      simp only [List.any_cons, ht', Bool.false_or] at hany
      simp only [List.filter_cons, ht', Bool.false_eq_true, if_false] at hlen
      obtain ⟨ih1, ih2⟩ := ih hlen hany
      simp only [replaceFirstAFC, ht', Bool.false_eq_true, if_false, List.filter_cons,
        Bool.not_false, if_true, ih1, ih2]
      exact ⟨trivial, trivial⟩

/-- The availability-block rewrite: afterwards the set carries exactly one
`AvailableForChannels` child, holding one `AvailableChannel` per payload
pair, and every other child is untouched. -/
theorem updateCNSElem_afc (A : String) (chA : List FrontChan)
    (aA : List (String × String)) (kidsA : List Elem) :
    (kidsA.filter (fun c => c.tag == "AvailableForChannels")).length ≤ 1 →
    (updateCNSElem ⟨A, some chA⟩ (.mk "ChannelNameSet" aA kidsA)).tag = "ChannelNameSet"
      ∧ (updateCNSElem ⟨A, some chA⟩ (.mk "ChannelNameSet" aA kidsA)).attrs = aA
      ∧ (updateCNSElem ⟨A, some chA⟩ (.mk "ChannelNameSet" aA kidsA)).children.filter
          (fun c => c.tag == "AvailableForChannels")
          = [.mk "AvailableForChannels" [] (chA.map mkAvailChannel)]
      ∧ (updateCNSElem ⟨A, some chA⟩ (.mk "ChannelNameSet" aA kidsA)).children.filter
          (fun c => !(c.tag == "AvailableForChannels"))
          = kidsA.filter (fun c => !(c.tag == "AvailableForChannels")) := by
  intro hlen
  simp only [updateCNSElem]
  by_cases hany : kidsA.any (fun c => c.tag == "AvailableForChannels") = true
  · rw [if_pos hany]
    obtain ⟨h1, h2⟩ := replaceFirstAFC_filter
      (.mk "AvailableForChannels" [] (chA.map mkAvailChannel)) rfl kidsA hlen hany
    exact ⟨rfl, rfl, h1, h2⟩
  · have hany' : kidsA.any (fun c => c.tag == "AvailableForChannels") = false := by
      simpa using hany
    rw [if_neg (by simp [hany'])]
    have hnilafc : kidsA.filter (fun c => c.tag == "AvailableForChannels") = [] := by
      rw [List.filter_eq_nil_iff]
      intro c hc
      have := List.any_eq_false.mp hany' c hc
      simpa using this
    refine ⟨rfl, rfl, ?_, ?_⟩
    · have hnew : ((Elem.mk "AvailableForChannels" [] (chA.map mkAvailChannel)).tag
          == "AvailableForChannels") = true := rfl
      simp only [Elem.children, List.filter_append, hnilafc, List.nil_append,
        List.filter_cons, hnew, if_true, List.filter_nil]
    · have hnew : ((Elem.mk "AvailableForChannels" [] (chA.map mkAvailChannel)).tag
          == "AvailableForChannels") = true := rfl
      simp only [Elem.children, List.filter_append, List.filter_cons, hnew, Bool.not_true,
        Bool.false_eq_true, if_false, List.filter_nil, List.append_nil]

theorem isCNS_not_ssdm :
    ∀ c : Elem, (isCNS c && !(c.tag == "SupportsStandardDeviceMode")) = isCNS c := by
  intro c
  by_cases h : isCNS c = true
  · have ht := eq_of_beq h
    rw [h]
    simp [ht]
  · have h' : isCNS c = false := by simpa using h
    rw [h']
    simp

/-- **C1.**  Full-replace semantics for channel name sets.  A device record
whose `ChannelNameSet` children are exactly `A` and `B` (in a DTD layout:
no nested set, surrounding children are not sets, at most one availability
block in `A`), merged with a payload whose `channelNameSets` section lists
`A` and `C`: the record then contains exactly the sets `{A, C}` — `B` is
removed by omission, `C` is created and appended, `A`'s node is reused
(attributes kept, non-availability children untouched), and `A`'s
`AvailableForChannels` block consists of exactly one `AvailableChannel` per
channel/available pair of the payload entry for `A`. -/
theorem C1_full_replace_channel_name_sets :
    ∀ (ma aA aB : List (String × String)) (p1 p2 p3 kidsA kidsB : List Elem)
      (A B C : String) (chA chC : List FrontChan) (m' : Elem),
      (∀ c ∈ p1, isCNS c = false) → (∀ c ∈ p2, isCNS c = false) →
      (∀ c ∈ p3, isCNS c = false) →
      cnsAllDirect (p1 ++ (.mk "ChannelNameSet" aA kidsA)
        :: (p2 ++ (.mk "ChannelNameSet" aB kidsB) :: p3)) = true →
      attrOf aA "Name" = some A → attrOf aB "Name" = some B →
      A ≠ B → C ≠ A → C ≠ B →
      (kidsA.filter (fun c => c.tag == "AvailableForChannels")).length ≤ 1 →
      mergeMaster ⟨some [⟨A, some chA⟩, ⟨C, some chC⟩], none, none, none, none, none, none⟩
          (.mk "MasterDeviceNames" ma (p1 ++ (.mk "ChannelNameSet" aA kidsA)
            :: (p2 ++ (.mk "ChannelNameSet" aB kidsB) :: p3))) = .ok m' →
      ((m'.children.filter isCNS).map cnsKey = [some A, some C]
        ∧ m'.children.filter isCNS
            = [updateCNSElem ⟨A, some chA⟩ (.mk "ChannelNameSet" aA kidsA),
               .mk "ChannelNameSet" [("Name", C)]
                 [.mk "AvailableForChannels" [] (chC.map mkAvailChannel)]]
        ∧ (updateCNSElem ⟨A, some chA⟩ (.mk "ChannelNameSet" aA kidsA)).children.filter
            (fun c => c.tag == "AvailableForChannels")
            = [.mk "AvailableForChannels" [] (chA.map mkAvailChannel)]
        ∧ (updateCNSElem ⟨A, some chA⟩ (.mk "ChannelNameSet" aA kidsA)).children.filter
            (fun c => !(c.tag == "AvailableForChannels"))
            = kidsA.filter (fun c => !(c.tag == "AvailableForChannels"))) := by
  intro ma aA aB p1 p2 p3 kidsA kidsB A B C chA chC m'
  intro hp1 hp2 hp3 hdirect hA hB hAB hCA hCB hafc hm
  set nA : Elem := .mk "ChannelNameSet" aA kidsA with hnA
  set nB : Elem := .mk "ChannelNameSet" aB kidsB with hnB
  set sets : List FrontCNS := [⟨A, some chA⟩, ⟨C, some chC⟩] with hsets
  set cs : List Elem := p1 ++ nA :: (p2 ++ nB :: p3) with hcs
  have hkeyA : cnsKey nA = some A := hA
  have hkeyB : cnsKey nB = some B := hB
  -- the channel-name-set step succeeds and the other sections are absent
  have hmm : m' = .mk "MasterDeviceNames" ma
      ((mergeCNSChildren sets cs).filter
        (fun c => !(c.tag == "SupportsStandardDeviceMode"))) := by
    simp only [mergeMaster, mergeChannelNameSets, hdirect, if_true, mergePatchList,
      mergeNoteLists, mergeControlLists, mergeActiveControl, mergeSSDM,
      Option.getD_none, Bool.false_eq_true, if_false, Except.ok.injEq] at hm
    exact hm.symm
  -- compute the replace step
  have horig : cs.filterMap (fun c => if isCNS c then cnsKey c else none) = [A, B] := by
    rw [hcs, List.filterMap_append, List.filterMap_cons, List.filterMap_append,
      List.filterMap_cons]
    have hzero : ∀ xs : List Elem, (∀ c ∈ xs, isCNS c = false) →
        xs.filterMap (fun c => if isCNS c then cnsKey c else none) = [] := by
      intro xs h
      rw [List.filterMap_eq_nil_iff]
      intro c hc
      simp [h c hc]
    rw [hzero p1 hp1, hzero p2 hp2, hzero p3 hp3]
    have h1 : (if isCNS nA then cnsKey nA else none) = some A := by
      have : isCNS nA = true := rfl
      rw [if_pos this, hkeyA]
    have h2 : (if isCNS nB then cnsKey nB else none) = some B := by
      have : isCNS nB = true := rfl
      rw [if_pos this, hkeyB]
    rw [h1, h2]
    rfl
  have hremove : removeStaleCNS (sets.map (·.name)) cs = p1 ++ nA :: (p2 ++ p3) := by
    have hfront : sets.map (·.name) = [A, C] := rfl
    rw [hcs, hfront]
    rw [removeStale_skip [A, C] p1 _ hp1]
    rw [removeStale_keep [A, C] nA _ A rfl hkeyA (by simp [List.contains_cons])]
    rw [removeStale_skip [A, C] p2 _ hp2]
    rw [removeStale_drop [A, C] nB _ B rfl hkeyB
      (by simp [List.contains_cons, Ne.symm hAB, Ne.symm hCB])
      (fun c hc => by simp [hp3 c hc])]
    have hall : ∀ c ∈ p3, isCNS c = false := hp3
    have : removeStaleCNS [A, C] p3 = p3 := by
      have h := removeStale_skip [A, C] p3 [] hall
      simpa [removeStaleCNS] using h
    rw [this]
  have hmerge : mergeCNSChildren sets cs
      = (p1 ++ (updateCNSElem ⟨A, some chA⟩ nA) :: (p2 ++ p3))
        ++ [.mk "ChannelNameSet" [("Name", C)]
             [.mk "AvailableForChannels" [] (chC.map mkAvailChannel)]] := by
    simp only [mergeCNSChildren, horig, hremove]
    have hcontA : (([A, B] : List String).contains A) = true := by
      simp [List.contains_cons]
    have hcontC : (([A, B] : List String).contains C) = false := by
      simp [List.contains_cons, hCA, hCB]
    rw [hsets]
    simp only [List.foldl_cons, List.foldl_nil, hcontA, if_true, hcontC,
      Bool.false_eq_true, if_false]
    rw [modifyLast_found A (updateCNSElem ⟨A, some chA⟩) p1 nA (p2 ++ p3)
      rfl hkeyA
      (fun c hc => by
        rcases List.mem_append.mp hc with h | h
        · simp [hp2 c h]
        · simp [hp3 c h])]
    rfl
  obtain ⟨htagA, hattrA, hafc1, hafc2⟩ := updateCNSElem_afc A chA aA kidsA hafc
  have hupdCNS : isCNS (updateCNSElem ⟨A, some chA⟩ nA) = true := by
    simp [isCNS, htagA]
  have hfilter : m'.children.filter isCNS
      = [updateCNSElem ⟨A, some chA⟩ nA,
         .mk "ChannelNameSet" [("Name", C)]
           [.mk "AvailableForChannels" [] (chC.map mkAvailChannel)]] := by
    rw [hmm]
    simp only [Elem.children, List.filter_filter]
    have hcongr : ∀ l : List Elem,
        l.filter (fun a => isCNS a && !(a.tag == "SupportsStandardDeviceMode"))
          = l.filter isCNS := by
      intro l
      induction l with
      | nil => rfl
      | cons hd tl ih => simp only [List.filter_cons, isCNS_not_ssdm, ih]
    rw [hcongr, hmerge]
    have hnilfilter : ∀ xs : List Elem, (∀ c ∈ xs, isCNS c = false) →
        xs.filter isCNS = [] := by
      intro xs h
      rw [List.filter_eq_nil_iff]
      intro c hc
      simp [h c hc]
    simp only [List.filter_append, List.filter_cons, hupdCNS, if_true,
      hnilfilter p1 hp1, hnilfilter p2 hp2, hnilfilter p3 hp3]
    rfl
  refine ⟨?_, hfilter, hafc1, hafc2⟩
  rw [hfilter]
  simp only [List.map_cons, List.map_nil]
  have h1 : cnsKey (updateCNSElem ⟨A, some chA⟩ nA) = some A := by
    simp only [cnsKey, Elem.get, hattrA, hA]
  rw [h1]
  rfl

/-- Closed instance of C1: merging a payload whose channel-name-set section
lists `A` and `C` into `exC1doc` (sets `A` and `B`) keeps exactly the sets
named `A` and `C`, in that order. -/
theorem C1_witness :
    mergeMaster
        ⟨some [⟨"A", some [⟨some "1", true⟩]⟩, ⟨"C", some [⟨some "2", false⟩]⟩],
         none, none, none, none, none, none⟩ exC1doc
      = .ok (.mk "MasterDeviceNames" []
          [.mk "Manufacturer" [] [],
           .mk "ChannelNameSet" [("Name", "A")]
             [.mk "AvailableForChannels" []
                [.mk "AvailableChannel" [("Channel", "1"), ("Available", "true")] []],
              .mk "UsesControlNameList" [("Name", "X")] []],
           .mk "Model" [] [],
           .mk "ChannelNameSet" [("Name", "C")]
             [.mk "AvailableForChannels" []
                [.mk "AvailableChannel" [("Channel", "2"), ("Available", "false")] []]]])
    ∧ (((Elem.mk "MasterDeviceNames" []
          [.mk "Manufacturer" [] [],
           .mk "ChannelNameSet" [("Name", "A")]
             [.mk "AvailableForChannels" []
                [.mk "AvailableChannel" [("Channel", "1"), ("Available", "true")] []],
              .mk "UsesControlNameList" [("Name", "X")] []],
           .mk "Model" [] [],
           .mk "ChannelNameSet" [("Name", "C")]
             [.mk "AvailableForChannels" []
                [.mk "AvailableChannel" [("Channel", "2"), ("Available", "false")] []]]]).children.filter
          isCNS).map cnsKey = [some "A", some "C"]) :=
  ⟨rfl,
   (C1_full_replace_channel_name_sets
      [] [("Name", "A")] [("Name", "B")]
      [.mk "Manufacturer" [] []] [.mk "Model" [] []] []
      [.mk "AvailableForChannels" [("old", "1")] [.mk "AvailableChannel" [("Channel", "9")] []],
       .mk "UsesControlNameList" [("Name", "X")] []]
      [.mk "AvailableForChannels" [] []]
      "A" "B" "C" [⟨some "1", true⟩] [⟨some "2", false⟩] _
      (by intro c hc; rw [List.mem_singleton] at hc; subst hc; rfl)
      (by intro c hc; rw [List.mem_singleton] at hc; subst hc; rfl)
      (by intro c hc; exact absurd hc (List.not_mem_nil c))
      rfl rfl rfl (by decide) (by decide) (by decide) (by decide) rfl).1⟩
